import Mathlib

/-!
Verification development for the libconfigpp single-header configuration
library (src/include/libconfigpp.h).  The C++ source is shallowly embedded:
pure fragments become Lean functions, thrown exceptions become an explicit
error type, machine integers become Int with explicit range clamps, and the
two unbounded recursions of the source (the tokenizer driver loop and the
include expansion) are given explicit fuel, which is an artifact of the
embedding and is always instantiated large enough that it is never consumed
on terminating runs.

Floating point payloads are modelled by the source literal that produced
them; no settled statement below depends on IEEE-754 rounding.
-/

namespace LibConfig

/-- Display format hint of integer scalars (basic_setting::Format). -/
inductive Fmt where
  | hexF
  | defaultF
deriving DecidableEq, Repr

/-- Model of ParseException: message, file, line, offset (column). -/
structure PError where
  error : String
  file : String
  line : Nat
  offset : Nat
deriving DecidableEq, Repr

/-- Unified error type for everything the header throws.
SettingTypeException carries (message, path); SettingNameException and
SettingNotFoundException likewise; std::invalid_argument carries a message;
FileIOException a message; ConfigException a message.  fuelOut is an
embedding artifact marking that a recursion of the source is still running
(the source has no such bound). -/
inductive CErr where
  | parse (e : PError)
  | typeE (msg : String) (path : String)
  | nameE (msg : String) (path : String)
  | notFound (msg : String) (path : String)
  | invalidArg (msg : String)
  | fileIOErr (msg : String)
  | cfg (msg : String)
  | fuelOut
deriving DecidableEq, Repr

/-- Model of basic_config::token: a string plus source coordinates and an
optional source file (string_ptr file; empty pointer is none). -/
structure Token where
  text : String
  line : Nat
  offset : Nat
  file : Option String
deriving DecidableEq, Repr

/-- Model of basic_config::_syntax_exception(msg, tok, offset_at_end_of_token)
(header lines 2401-2415).  The source builds an ostringstream ss but never
streams msg into it, so the exception message is always the empty string;
likewise it computes the adjusted offset but then passes tok.offset to the
ParseException constructor, so the adjustment is discarded.  Both dead
computations are kept here verbatim. -/
def syn_exception (msg : String) (tok : Token) (offsetAtEnd : Bool) : PError :=
  let _deadMsg := msg
  let _deadOffset := if offsetAtEnd then tok.offset + tok.text.length else tok.offset
  ⟨"", tok.file.getD "", tok.line, tok.offset⟩

/-- Tokenizer position state: current line, current offset and the pending
new-line flag of config_tokenizer (members line, offset, new_line).
reset() sets line = 1, offset = 1, new_line = false. -/
structure Pos where
  line : Nat
  offset : Nat
  newLine : Bool
deriving DecidableEq, Repr

/-- Initial tokenizer position (config_tokenizer::reset). -/
def posInit : Pos := ⟨1, 1, false⟩

/-- Model of config_tokenizer::get: the offset is incremented first, then a
pending new-line advances the line and resets the offset to 1, then reading
a newline arms the new-line flag for the next character. -/
def get_pos (c : Char) (p : Pos) : Pos :=
  if p.newLine then ⟨p.line + 1, 1, c = '\n'⟩
  else ⟨p.line, p.offset + 1, c = '\n'⟩

/-- The separator set of config_tokenizer (constructor argument). -/
def separators : List Char :=
  ['\x7b', '\x7d', '[', ']', '(', ')', ',', '/', '\\', '"', '=', ':', ';']

/-- Model of config_tokenizer::is_in_set over the separator set. -/
def is_sep (c : Char) : Bool := separators.contains c

/-- Bytes accepted by isspace in the "C" locale. -/
def is_space_c (c : Char) : Bool :=
  c = ' ' || c = '\t' || c = '\n' || c = '\x0b' || c = '\x0c' || c = '\r'

/-- Model of config_tokenizer::skip_comment.  Walks the character stream with
the three local flags (simple_comment, complicated_comment, escape), returns
the first character that is not comment material together with the remaining
stream and position, or none when the stream is exhausted (the source returns
the char value 0 in that case).  When is_string is set the first character is
returned untouched.  A lone '/' at end of input and a '/' followed by
anything other than '/' or '*' raise a ParseException. -/
def skip_comment (isStr : Bool) :
    List Char → Pos → Bool → Bool → Bool →
    Except PError (Option (Char × List Char × Pos))
  | [], _, _, _, _ => .ok none
  | c :: cs, pos, simple, compl, esc =>
    let p1 := get_pos c pos
    if isStr then .ok (some (c, cs, p1))
    else if compl then
      if c = '/' && esc then skip_comment isStr cs p1 simple false false
      else if c = '*' then skip_comment isStr cs p1 simple true true
      else skip_comment isStr cs p1 simple true false
    else if simple then
      skip_comment isStr cs p1 (c ≠ '\n') false false
    else if c = '#' then
      skip_comment isStr cs p1 true false esc
    else if c = '/' then
      match cs with
      | [] =>
        .error (syn_exception "Unexpected end of comment"
          ⟨String.mk [c], p1.line, p1.offset, none⟩ false)
      | c2 :: cs2 =>
        let p2 := get_pos c2 p1
        if c2 = '*' then skip_comment isStr cs2 p2 simple true esc
        else if c2 = '/' then skip_comment isStr cs2 p2 true false esc
        else
          .error (syn_exception ("Unexpected character " ++ String.mk [c2])
            ⟨String.mk [c2], p2.line, p2.offset, none⟩ false)
    else .ok (some (c, cs, p1))

/-- Append a character to a token's text (string_type::operator+=). -/
def tokPush (t : Token) (c : Char) : Token := ⟨t.text.push c, t.line, t.offset, t.file⟩

/-- Result of one call of config_tokenizer::operator(): either a token is
produced (possibly with a one-character separator stashed as tmp_token for
the next call), or the stream is exhausted (the source returns false). -/
inductive TokStep where
  | emit (t : Token) (pend : Option Char) (rest : List Char) (pos : Pos)
  | eos
deriving DecidableEq, Repr

/-- Model of the main loop of config_tokenizer::operator() (after the
tmp_token check, which the driver tokenize_loop performs).  The parameters
isStr, esc and isIdent are the is_string member and the two locals; tok is
the token being accumulated.  Fuel is an embedding artifact: every iteration
consumes at least one character, so fuel exceeding the stream length is never
exhausted. -/
def next_tok : Nat → List Char → Pos → Bool → Bool → Bool → Token →
    Except CErr TokStep
  | 0, _, _, _, _, _, _ => .error .fuelOut
  | _ + 1, [], _, _, _, _, _ => .ok .eos
  | fuel + 1, c0 :: cs0, pos, isStr, esc, isIdent, tok =>
    match skip_comment isStr (c0 :: cs0) pos false false false with
    | .error e => .error (.parse e)
    | .ok none => .ok .eos
    | .ok (some (c, cs, p)) =>
      if isStr then
        if c = '"' && !esc then .ok (.emit (tokPush tok '"') none cs p)
        else if esc then
          if c = '\\' || c = '"' then
            next_tok fuel cs p true false isIdent (tokPush tok c)
          else if c = 't' then
            next_tok fuel cs p true false isIdent (tokPush tok '\t')
          else if c = 'n' then
            next_tok fuel cs p true false isIdent (tokPush tok '\n')
          else
            .error (.parse (syn_exception
              ("Unallowed escape token \\" ++ String.mk [c])
              ⟨tok.text, p.line, p.offset, tok.file⟩ false))
        else if c = '\\' then next_tok fuel cs p true true isIdent tok
        else next_tok fuel cs p true false isIdent (tokPush tok c)
      else if c = '"' then
        next_tok fuel cs p true esc isIdent ⟨"\"", p.line, p.offset, tok.file⟩
      else if isIdent then
        if is_space_c c then .ok (.emit tok none cs p)
        else if is_sep c then .ok (.emit tok (some c) cs p)
        else next_tok fuel cs p isStr esc true (tokPush tok c)
      else if is_sep c then
        .ok (.emit ⟨String.mk [c], p.line, p.offset, tok.file⟩ none cs p)
      else if !(is_space_c c) then
        next_tok fuel cs p isStr esc true ⟨String.mk [c], p.line, p.offset, tok.file⟩
      else next_tok fuel cs p isStr esc isIdent tok

/-- Driver loop: boost::tokenizer repeatedly invokes operator() collecting
tokens until it reports end of stream.  A stashed tmp_token separator is
delivered first, stamped with the current line and offset, exactly as the
head of operator() does. -/
def tokenize_loop : Nat → List Char → Pos → Option Char → List Token →
    Except CErr (List Token)
  | 0, _, _, _, _ => .error .fuelOut
  | fuel + 1, cs, pos, some pc, acc =>
    tokenize_loop fuel cs pos none (⟨String.mk [pc], pos.line, pos.offset, none⟩ :: acc)
  | fuel + 1, cs, pos, none, acc =>
    match next_tok (cs.length + 1) cs pos false false false ⟨"", 0, 0, none⟩ with
    | .error e => .error e
    | .ok .eos => .ok acc.reverse
    | .ok (.emit t pend rest p) => tokenize_loop fuel rest p pend (t :: acc)

/-- Tokenize a whole character stream from the reset state. -/
def tokenize_str (s : String) : Except CErr (List Token) :=
  tokenize_loop (2 * s.length + 4) s.toList posInit none []

/-- The type tag of a Setting (basic_setting::Type). -/
inductive TType where
  | tInt
  | tInt64
  | tFloat
  | tString
  | tBoolean
  | tArray
  | tList
  | tGroup
deriving DecidableEq, Repr

mutual
/-- A Setting: a name together with its typed value body (basic_setting;
the name is m_name, the body models m_value plus m_type).  Source
provenance (m_file, m_line) and the parent back-reference are not carried:
operator== ignores them and the functional embedding passes parents
explicitly where needed. -/
inductive STree where
  | mk (name : String) (val : SVal)
deriving DecidableEq, Repr

/-- The value body of a Setting.  Scalars mirror _basic_setting_scalar<T>
with T = bool, int, long, float, string_type; integer scalars carry the
m_format display hint (the member exists on every scalar body but only
integer scalars ever receive a non-default value).  Float payloads are
modelled by the source literal; no settled statement depends on their
numeric value.  Group children are kept sorted by name, mirroring
std::map's iteration order; list and array children are in insertion
order. -/
inductive SVal where
  | vBool (b : Bool)
  | vInt (n : Int) (fmt : Fmt)
  | vInt64 (n : Int) (fmt : Fmt)
  | vFloat (lit : String)
  | vStr (s : String)
  | vGroup (cs : SForest)
  | vList (cs : SForest)
  | vArray (cs : SForest)
deriving DecidableEq, Repr

/-- A list of child Settings (std::vector of children, or the sorted
entries of a group's std::map). -/
inductive SForest where
  | nil
  | cons (h : STree) (t : SForest)
deriving DecidableEq, Repr
end

/-- Name of a setting (basic_setting::getName). -/
def STree.name : STree → String
  | .mk n _ => n

/-- Value body of a setting. -/
def STree.val : STree → SVal
  | .mk _ v => v

/-- Type tag of a value body (m_type always agrees with the body's shape). -/
def SVal.tag : SVal → TType
  | .vBool _ => .tBoolean
  | .vInt _ _ => .tInt
  | .vInt64 _ _ => .tInt64
  | .vFloat _ => .tFloat
  | .vStr _ => .tString
  | .vGroup _ => .tGroup
  | .vList _ => .tList
  | .vArray _ => .tArray

/-- Model of basic_setting::isScalar. -/
def TType.isScalar : TType → Bool
  | .tInt | .tInt64 | .tFloat | .tBoolean | .tString => true
  | _ => false

/-- Number of children of a forest. -/
def SForest.len : SForest → Nat
  | .nil => 0
  | .cons _ t => t.len + 1

/-- The i-th child of a forest, if present. -/
def SForest.get : SForest → Nat → Option STree
  | .nil, _ => none
  | .cons h _, 0 => some h
  | .cons _ t, i + 1 => t.get i

/-- Convert a forest to a Lean list (embedding convenience only). -/
def SForest.toL : SForest → List STree
  | .nil => []
  | .cons h t => h :: t.toL

mutual
/-- Model of basic_setting::operator== (structural equality): names and
type tags must agree and the value bodies must compare equal; format hints
and source provenance are not compared. -/
def settingEq : STree → STree → Bool
  | .mk n1 v1, .mk n2 v2 => n1 = n2 && v1.tag = v2.tag && svalEq v1 v2

/-- Value-body equality: scalar payloads compare by value (the format hint
is ignored, as _basic_setting_scalar::operator== compares only the
boost::any payloads); aggregates compare sizes and then children pairwise
in iteration order. -/
def svalEq : SVal → SVal → Bool
  | .vBool a, .vBool b => a = b
  | .vInt a _, .vInt b _ => a = b
  | .vInt64 a _, .vInt64 b _ => a = b
  | .vFloat a, .vFloat b => a = b
  | .vStr a, .vStr b => a = b
  | .vGroup a, .vGroup b => forestEq a b
  | .vList a, .vList b => forestEq a b
  | .vArray a, .vArray b => forestEq a b
  | _, _ => false

/-- Pairwise equality of child sequences of equal length. -/
def forestEq : SForest → SForest → Bool
  | .nil, .nil => true
  | .cons h1 t1, .cons h2 t2 => settingEq h1 h2 && forestEq t1 t2
  | _, _ => false
end

/-- Lexicographic byte-wise order on characters lists, modelling
std::less<std::string> for the ASCII-only names this development uses. -/
def chars_lt : List Char → List Char → Bool
  | [], [] => false
  | [], _ :: _ => true
  | _ :: _, [] => false
  | a :: as, b :: bs =>
    if a.toNat < b.toNat then true
    else if b.toNat < a.toNat then false
    else chars_lt as bs

/-- String order used by the group's std::map. -/
def str_lt (a b : String) : Bool := chars_lt a.toList b.toList

/-- Model of _basic_setting_container::add: inserting a child whose name is
already a key of the map raises SettingNameException(name + " already
exists", ""); otherwise the child is stored at its sorted position. -/
def group_insert : SForest → STree → Except CErr SForest
  | .nil, v => .ok (.cons v .nil)
  | .cons h t, v =>
    if v.name = h.name then .error (.nameE (v.name ++ " already exists") "")
    else if str_lt v.name h.name then .ok (.cons v (.cons h t))
    else (group_insert t v).map (fun t' => .cons h t')

/-- Append a child to a list body (_basic_setting_list::add never fails). -/
def list_append : SForest → STree → SForest
  | .nil, v => .cons v .nil
  | .cons h t, v => .cons h (list_append t v)

/-- Model of _basic_setting_array::add: the element must be scalar and,
when the array is nonempty, must share the type of the first element. -/
def array_insert (cs : SForest) (v : STree) : Except CErr SForest :=
  if !v.val.tag.isScalar then
    .error (.typeE "Array elements must be scalar values" "")
  else
    match cs with
    | .nil => .ok (.cons v .nil)
    | .cons h t =>
      if h.val.tag ≠ v.val.tag then
        .error (.typeE "Array elements must have same type" "")
      else .ok (.cons h (list_append t v))

/-- INT_MAX for the 32-bit int of the reference platform. -/
def intMax : Int := 2 ^ 31 - 1

/-- INT_MIN. -/
def intMin : Int := -(2 ^ 31)

/-- UINT_MAX. -/
def uintMax : Int := 2 ^ 32 - 1

/-- LONG_MAX for the LP64 long used as the Int64 payload. -/
def longMax : Int := 2 ^ 63 - 1

/-- LONG_MIN. -/
def longMin : Int := -(2 ^ 63)

/-- SIZE_MAX. -/
def sizeMax : Nat := 2 ^ 64 - 1

/-- Whether a float literal denotes a nonzero value: true iff its mantissa
contains a nonzero digit.  (Underflow of tiny exponents to zero is not
modelled; no settled statement depends on it.) -/
def floatLitNonzero (lit : String) : Bool :=
  (lit.toList.takeWhile (fun c => c ≠ 'e' && c ≠ 'E')).any
    (fun c => c.isDigit && c ≠ '0')

/-- Result of a conversion whose C++ target type is float or double: either
a long value converted to floating point, or the stored float payload. -/
inductive FloatOut where
  | ofLong (t : Int)
  | ofLit (lit : String)
deriving DecidableEq, Repr

/-- Model of lookupValue(long&): booleans read as 0/1, both integer widths
read exactly; everything else is a type error.  Aggregate bodies hit the
abstract base implementation whose message differs from the scalar one. -/
def lookup_long : SVal → Except CErr Int
  | .vBool b => .ok (if b then 1 else 0)
  | .vInt n _ => .ok n
  | .vInt64 n _ => .ok n
  | .vFloat _ => .error (.typeE "unsupported conversion" "")
  | .vStr _ => .error (.typeE "unsupported conversion" "")
  | _ => .error (.typeE "converion not implemented" "")

/-- Model of lookupValue(bool&): integral types read via long and compare
against zero; a float payload compares its value against zero. -/
def lookup_bool : SVal → Except CErr Bool
  | .vBool b => (lookup_long (.vBool b)).map (fun t => t ≠ 0)
  | .vInt n f => (lookup_long (.vInt n f)).map (fun t => t ≠ 0)
  | .vInt64 n f => (lookup_long (.vInt64 n f)).map (fun t => t ≠ 0)
  | .vFloat lit => .ok (floatLitNonzero lit)
  | .vStr _ => .error (.typeE "unsupported conversion" "")
  | _ => .error (.typeE "converion not implemented" "")

/-- Model of lookupValue(int&): integral types read via long, then the
result is range-checked against INT_MIN/INT_MAX. -/
def lookup_int (v : SVal) : Except CErr Int :=
  match v with
  | .vBool _ | .vInt _ _ | .vInt64 _ _ => do
    let t ← lookup_long v
    if t > intMax || t < intMin then .error (.typeE "type overflow" "")
    else .ok t
  | .vFloat _ => .error (.typeE "unsupported conversion" "")
  | .vStr _ => .error (.typeE "unsupported conversion" "")
  | _ => .error (.typeE "converion not implemented" "")

/-- Model of lookupValue(unsigned int&): negative values are rejected, then
the result is checked against UINT_MAX. -/
def lookup_uint (v : SVal) : Except CErr Int :=
  match v with
  | .vBool _ | .vInt _ _ | .vInt64 _ _ => do
    let t ← lookup_long v
    if t < 0 then .error (.typeE "negative value" "")
    else if t > uintMax then .error (.typeE "type overflow" "")
    else .ok t
  | .vFloat _ => .error (.typeE "unsupported conversion" "")
  | .vStr _ => .error (.typeE "unsupported conversion" "")
  | _ => .error (.typeE "converion not implemented" "")

/-- Model of lookupValue(unsigned long&): nonnegative longs pass through,
negative values are rejected. -/
def lookup_ulong (v : SVal) : Except CErr Int :=
  match v with
  | .vBool _ | .vInt _ _ | .vInt64 _ _ => do
    let t ← lookup_long v
    if t ≥ 0 then .ok t else .error (.typeE "negative value" "")
  | .vFloat _ => .error (.typeE "unsupported conversion" "")
  | .vStr _ => .error (.typeE "unsupported conversion" "")
  | _ => .error (.typeE "converion not implemented" "")

/-- Model of lookupValue(float&): booleans and both integer widths succeed
via the long path (so the conversion-matrix cell that forbids
Boolean-to-float is not enforced by the code); a float payload is returned
as stored. -/
def lookup_float (v : SVal) : Except CErr FloatOut :=
  match v with
  | .vBool _ | .vInt _ _ | .vInt64 _ _ =>
    (lookup_long v).map (fun t => .ofLong t)
  | .vFloat lit => .ok (.ofLit lit)
  | .vStr _ => .error (.typeE "unsupported conversion" "")
  | _ => .error (.typeE "converion not implemented" "")

/-- Model of lookupValue(double&): every case of the switch funnels through
the float overload, so booleans succeed here too. -/
def lookup_double (v : SVal) : Except CErr FloatOut :=
  match v with
  | .vBool _ | .vInt _ _ | .vInt64 _ _ | .vFloat _ => lookup_float v
  | .vStr _ => .error (.typeE "unsupported conversion" "")
  | _ => .error (.typeE "converion not implemented" "")

/-- Model of lookupValue(string_type&). -/
def lookup_string : SVal → Except CErr String
  | .vStr s => .ok s
  | .vBool _ | .vInt _ _ | .vInt64 _ _ | .vFloat _ =>
    .error (.typeE "unsupported conversion" "")
  | _ => .error (.typeE "converion not implemented" "")

/-- Model of basic_setting::_long_path: the path contains a dot. -/
def long_path (p : List Char) : Bool := p.contains '.'

/-- Model of _local: the prefix before the first dot. -/
def local_of (p : List Char) : List Char := p.takeWhile (fun c => c ≠ '.')

/-- Model of _remote: everything after the first dot (empty for short
paths). -/
def remote_of (p : List Char) : List Char :=
  (p.dropWhile (fun c => c ≠ '.')).drop 1

/-- Model of _parent: the prefix before the last dot (empty for short
paths). -/
def parent_of (p : List Char) : List Char :=
  if long_path p then ((p.reverse.dropWhile (fun c => c ≠ '.')).drop 1).reverse
  else []

/-- Model of _leaf: everything after the last dot (the whole path when it
has no dot). -/
def leaf_of (p : List Char) : List Char :=
  if long_path p then (p.reverse.takeWhile (fun c => c ≠ '.')).reverse
  else p

/-- Numeric value of a run of decimal digits. -/
def digitsVal (ds : List Char) : Nat :=
  ds.foldl (fun a c => a * 10 + (c.toNat - 48)) 0

/-- Model of _convert_index: the path must fully match the anchored pattern
of an opening bracket, one or more digits, a closing bracket and an
optional trailing dot; the digits are then read into a size_t.  A value the
stream cannot represent makes the extraction fail, in which case the source
falls back to treating the component as a name. -/
def convert_index (p : List Char) : Option Nat :=
  match p with
  | '[' :: rest =>
    let ds := rest.takeWhile Char.isDigit
    let after := rest.dropWhile Char.isDigit
    if ds ≠ [] && (after = [']'] || after = [']', '.']) then
      let v := digitsVal ds
      if v ≤ sizeMax then some v else none
    else none
  | _ => none

/-- Model of basic_setting::_check_path: empty paths and paths that begin
or end with a dot raise std::invalid_argument. -/
def check_path (p : List Char) : Except CErr Unit :=
  if p = [] then .error (.invalidArg "Path is empty")
  else if p.head? = some '.' || p.getLast? = some '.' then
    .error (.invalidArg "Path can not begin or end with dot(.)")
  else .ok ()

/-- Path text "[i]" used by _not_found_ex(size_t). -/
def idx_path_str (i : Nat) : String := "[" ++ toString i ++ "]"

/-- Find a child by name among a group's sorted entries (map lookup). -/
def forest_find : SForest → String → Option STree
  | .nil, _ => none
  | .cons h t, nm => if h.name = nm then some h else forest_find t nm

/-- Erase the child with the given name (map erase; the caller has already
checked membership). -/
def forest_erase : SForest → String → SForest
  | .nil, _ => .nil
  | .cons h t, nm => if h.name = nm then t else .cons h (forest_erase t nm)

/-- Replace the i-th child. -/
def forest_set : SForest → Nat → STree → SForest
  | .nil, _, _ => .nil
  | .cons _ t, 0, nw => .cons nw t
  | .cons h t, i + 1, nw => .cons h (forest_set t i nw)

/-- Replace the child with the given name, keeping its position. -/
def forest_replace : SForest → String → STree → SForest
  | .nil, _, _ => .nil
  | .cons h t, nm, nw =>
    if h.name = nm then .cons nw t else .cons h (forest_replace t nm nw)

/-- Model of the virtual at(size_t): groups walk the sorted map, lists and
arrays index their vector, every other body hits the abstract base which
raises SettingNotFoundException("Setting not found", "[i]"). -/
def value_at_idx (t : STree) (i : Nat) : Except CErr STree :=
  match t.val with
  | .vGroup cs | .vList cs | .vArray cs =>
    match cs.get i with
    | some c => .ok c
    | none => .error (.notFound "Setting not found" (idx_path_str i))
  | _ => .error (.notFound "Setting not found" (idx_path_str i))

/-- Model of the virtual at(string): only a group can resolve a name. -/
def value_at_name (t : STree) (nm : String) : Except CErr STree :=
  match t.val with
  | .vGroup cs =>
    match forest_find cs nm with
    | some c => .ok c
    | none => .error (.notFound "Setting not found" nm)
  | _ => .error (.notFound "Setting not found" nm)

/-- Model of the virtual exists(size_t). -/
def value_exists_idx (t : STree) (i : Nat) : Bool :=
  match t.val with
  | .vGroup cs | .vList cs | .vArray cs => i < cs.len
  | _ => false

/-- Model of the virtual exists(string). -/
def value_exists_name (t : STree) (nm : String) : Bool :=
  match t.val with
  | .vGroup cs => (forest_find cs nm).isSome
  | _ => false

/-- The catch clause of _at: a SettingNotFoundException thrown while
resolving is re-raised with the path argument of the current level; other
exceptions pass through. -/
def wrap_not_found (p : List Char) : Except CErr STree → Except CErr STree
  | .error (.notFound msg _) => .error (.notFound msg (String.mk p))
  | r => r

/-- Model of basic_setting::_at (lines 677-703): an empty path resolves to
the receiver itself; a short path is resolved as one index or name
component; a long path resolves its head component and recurses on the
remainder, re-wrapping any not-found error with the path of the current
level.  No path validation of any kind is performed here.  Fuel is an
embedding artifact; the remainder is strictly shorter than the path, so
fuel exceeding the path length is never exhausted. -/
def at_path : Nat → STree → List Char → Except CErr STree
  | 0, _, _ => .error .fuelOut
  | fuel + 1, t, p =>
    if p = [] then .ok t
    else
      wrap_not_found p
        (if !(long_path p) then
          match convert_index p with
          | some i => value_at_idx t i
          | none => value_at_name t (String.mk p)
        else
          match convert_index (local_of p) with
          | some i => do
            let c ← value_at_idx t i
            at_path fuel c (remote_of p)
          | none => do
            let c ← value_at_name t (String.mk (local_of p))
            at_path fuel c (remote_of p))

/-- basic_setting::operator[] on a path string (lines 285-303): it calls
_at directly, without _check_path. -/
def at_path_w (t : STree) (p : String) : Except CErr STree :=
  at_path (p.length + 1) t p.toList

/-- Model of basic_setting::_exists (lines 652-675).  Note the source quirk
on long paths: the index test passes the full path to _convert_index (line
664) while the name branch uses the local component, so bracketed head
components of long paths are resolved as names unless the remainder is
empty. -/
def exists_aux : Nat → STree → List Char → Except CErr Bool
  | 0, _, _ => .error .fuelOut
  | fuel + 1, t, p =>
    if !(long_path p) then
      match convert_index p with
      | some i => .ok (value_exists_idx t i)
      | none => .ok (value_exists_name t (String.mk p))
    else
      match convert_index p with
      | some i =>
        if value_exists_idx t i then
          match value_at_idx t i with
          | .ok c => exists_aux fuel c (remote_of p)
          | .error e => .error e
        else .ok false
      | none =>
        if value_exists_name t (String.mk (local_of p)) then
          match value_at_name t (String.mk (local_of p)) with
          | .ok c => exists_aux fuel c (remote_of p)
          | .error e => .error e
        else .ok false

/-- Model of basic_setting::exists: _check_path, then _exists. -/
def exists_path (t : STree) (p : String) : Except CErr Bool := do
  let _ ← check_path p.toList
  exists_aux (p.length + 1) t p.toList

/-- Model of the virtual remove(string): only a group can erase a named
child; everything else (including lists and arrays, which override only the
index overload) raises not-found. -/
def remove_local (t : STree) (leaf : String) : Except CErr STree :=
  match t.val with
  | .vGroup cs =>
    if (forest_find cs leaf).isSome then .ok ⟨t.name, .vGroup (forest_erase cs leaf)⟩
    else .error (.notFound "Setting not found" leaf)
  | _ => .error (.notFound "Setting not found" leaf)

/-- Functional write-back of a node replacement at a path whose resolution
already succeeded; it follows exactly the branch structure of _at and
returns the tree unchanged on the (unreachable) failure branches.  This is
the embedding of reference mutation. -/
def rebuild_at : Nat → STree → List Char → STree → STree
  | 0, t, _, _ => t
  | fuel + 1, t, p, nw =>
    if p = [] then nw
    else if !(long_path p) then
      match convert_index p with
      | some i =>
        (match t.val with
        | .vGroup cs => ⟨t.name, .vGroup (forest_set cs i nw)⟩
        | .vList cs => ⟨t.name, .vList (forest_set cs i nw)⟩
        | .vArray cs => ⟨t.name, .vArray (forest_set cs i nw)⟩
        | _ => t)
      | none =>
        (match t.val with
        | .vGroup cs => ⟨t.name, .vGroup (forest_replace cs (String.mk p) nw)⟩
        | _ => t)
    else
      match convert_index (local_of p) with
      | some i =>
        (match value_at_idx t i with
        | .ok c =>
          (match t.val with
          | .vGroup cs => ⟨t.name, .vGroup (forest_set cs i (rebuild_at fuel c (remote_of p) nw))⟩
          | .vList cs => ⟨t.name, .vList (forest_set cs i (rebuild_at fuel c (remote_of p) nw))⟩
          | .vArray cs => ⟨t.name, .vArray (forest_set cs i (rebuild_at fuel c (remote_of p) nw))⟩
          | _ => t)
        | .error _ => t)
      | none =>
        (match value_at_name t (String.mk (local_of p)) with
        | .ok c =>
          (match t.val with
          | .vGroup cs =>
            ⟨t.name, .vGroup (forest_replace cs (String.mk (local_of p))
              (rebuild_at fuel c (remote_of p) nw))⟩
          | _ => t)
        | .error _ => t)

/-- Model of basic_setting::remove(path) (lines 407-411): validate the
path, resolve its parent with _at, erase the leaf there, and write the
modified parent back into the tree. -/
def remove_path (t : STree) (p : String) : Except CErr STree := do
  let _ ← check_path p.toList
  let par := parent_of p.toList
  let target ← at_path (par.length + 1) t par
  let target' ← remove_local target (String.mk (leaf_of p.toList))
  .ok (rebuild_at (par.length + 1) t par target')

/-- Collapse an exception-throwing computation to the bool-returning
lookupValue convention: the source wraps the body in a catch of every
std::exception, returning false and leaving the output argument unassigned
(the assignment happens only after the conversion returned).  A some result
models returning true with the converted value stored. -/
def catch_all {α : Type} : Except CErr α → Option α
  | .ok v => some v
  | .error _ => none

/-- lookupValue(path, bool&) (lines 317-325). -/
def lookup_path_bool (t : STree) (p : String) : Option Bool :=
  catch_all (do let s ← at_path_w t p; lookup_bool s.val)

/-- lookupValue(path, int&). -/
def lookup_path_int (t : STree) (p : String) : Option Int :=
  catch_all (do let s ← at_path_w t p; lookup_int s.val)

/-- lookupValue(path, unsigned&). -/
def lookup_path_uint (t : STree) (p : String) : Option Int :=
  catch_all (do let s ← at_path_w t p; lookup_uint s.val)

/-- lookupValue(path, long&). -/
def lookup_path_long (t : STree) (p : String) : Option Int :=
  catch_all (do let s ← at_path_w t p; lookup_long s.val)

/-- lookupValue(path, unsigned long&). -/
def lookup_path_ulong (t : STree) (p : String) : Option Int :=
  catch_all (do let s ← at_path_w t p; lookup_ulong s.val)

/-- lookupValue(path, float&). -/
def lookup_path_float (t : STree) (p : String) : Option FloatOut :=
  catch_all (do let s ← at_path_w t p; lookup_float s.val)

/-- lookupValue(path, double&). -/
def lookup_path_double (t : STree) (p : String) : Option FloatOut :=
  catch_all (do let s ← at_path_w t p; lookup_double s.val)

/-- lookupValue(path, string&). -/
def lookup_path_string (t : STree) (p : String) : Option String :=
  catch_all (do let s ← at_path_w t p; lookup_string s.val)

/-- Lowercase hexadecimal digit. -/
def hexDigit (n : Nat) : Char :=
  if n < 10 then Char.ofNat (48 + n) else Char.ofNat (87 + n)

/-- Hex digits of n, least significant first (fuel exceeds the digit
count). -/
def hexDigitsRev : Nat → Nat → List Char
  | 0, _ => []
  | fuel + 1, n => if n = 0 then [] else hexDigit (n % 16) :: hexDigitsRev fuel (n / 16)

/-- Lowercase hex rendering of a Nat, as std::ostream with std::hex
produces it. -/
def hexOfNat (n : Nat) : String :=
  if n = 0 then "0" else String.mk (hexDigitsRev (n + 1) n).reverse

/-- A run of spaces (the string_type(n, ' ') indents of the printer). -/
def spaces (n : Nat) : String := String.mk (List.replicate n ' ')

/-- Scalar integer rendering of _basic_setting_scalar::print: hex format
prints "0x" and then the value under std::hex, which formats the NEGATIVE
values as the unsigned conversion of the two's-complement pattern;
Int64 values get an "L" suffix in either base. -/
def print_int_payload (n : Int) (f : Fmt) (is64 : Bool) : String :=
  let suffix := if is64 then "L" else ""
  match f with
  | .hexF => "0x" ++ hexOfNat ((n % (if is64 then (2 : Int) ^ 64 else 2 ^ 32)).toNat) ++ suffix
  | .defaultF => toString n ++ suffix

mutual
/-- Model of basic_setting::print (lines 747-753): a named setting prints
"name = " before its body. The hasParent flag stands for m_parent being
non-null, which the group body consults. -/
def print_setting : STree → Nat → Bool → String
  | .mk name v, level, hasParent =>
    (if name ≠ "" then name ++ " = " else "") ++ print_val v name hasParent level

/-- Model of the virtual print on each value body (scalar, group
(lines 1122-1145), list (960-977) and array (1075-1084) overloads).
Note: string payloads are emitted verbatim between quotes, with no escape
processing of backslashes, quotes, tabs or newlines; booleans print under
the default ostream flags as 1 or 0; float payloads print as their
modelled literal. -/
def print_val : SVal → String → Bool → Nat → String
  | .vBool b, _, _, _ => if b then "1" else "0"
  | .vInt n f, _, _, _ => print_int_payload n f false
  | .vInt64 n f, _, _, _ => print_int_payload n f true
  | .vFloat lit, _, _, _ => lit
  | .vStr s, _, _, _ => "\"" ++ s ++ "\""
  | .vGroup cs, name, hasParent, level =>
    let complex := hasParent || name ≠ ""
    let levelC := if complex then level + 1 else level
    match cs with
    | .nil => "\x7b\x7d"
    | .cons h t =>
      (if complex then "\x7b\n" else "") ++
      print_group_children (.cons h t) levelC ++
      (if complex then spaces (level * 4) ++ "\x7d" else "")
  | .vList cs, _, _, level =>
    (match cs with
    | .nil => "()"
    | .cons h t =>
      "(\n" ++ print_list_children true (SForest.cons h t) (level + 1) ++
      spaces (level * 4) ++ ")")
  | .vArray cs, _, _, _ => "[" ++ print_array_children true cs ++ "]"

/-- The group body's child loop: each child at the child indent, terminated
by ";" and a newline. -/
def print_group_children : SForest → Nat → String
  | .nil, _ => ""
  | .cons h t, levelC =>
    spaces (levelC * 4) ++ print_setting h levelC true ++ ";\n" ++
    print_group_children t levelC

/-- The list body's element loop: elements after the first are preceded by
an indented comma line. -/
def print_list_children : Bool → SForest → Nat → String
  | _, .nil, _ => ""
  | first, .cons h t, levelC =>
    (if first then "" else spaces (levelC * 4) ++ ",\n") ++
    spaces (levelC * 4) ++ print_setting h levelC true ++ "\n" ++
    print_list_children false t levelC

/-- The array body's element loop: comma-space separated, single line. -/
def print_array_children : Bool → SForest → String
  | _, .nil => ""
  | first, .cons h t =>
    (if first then "" else ", ") ++ print_setting h 0 true ++
    print_array_children false t
end

/-- Model of operator<< on a document root (lines 2423-2428): print at
level 0; the root of a config has no parent. -/
def print_doc (root : STree) : String := print_setting root 0 false

/-- Sign characters accepted by the scalar regexes. -/
def is_sign (c : Char) : Bool := c = '+' || c = '-'

/-- Drop one leading sign character. -/
def strip_sign : List Char → List Char
  | c :: r => if is_sign c then r else c :: r
  | [] => []

/-- One or more decimal digits and nothing else. -/
def digits1 (cs : List Char) : Bool := cs ≠ [] && cs.all Char.isDigit

/-- Hexadecimal digit class of the scalar regexes. -/
def is_hex_digit (c : Char) : Bool :=
  c.isDigit || (97 ≤ c.toNat && c.toNat ≤ 102) || (65 ≤ c.toNat && c.toNat ≤ 70)

/-- Anchored match of rx_boolean, written out as the character classes of
the pattern [Tt][Rr][Uu][Ee] | [Ff][Aa][Ll][Ss][Ee]. -/
def match_boolean (s : String) : Bool :=
  match s.toList with
  | [c1, c2, c3, c4] =>
    (c1 = 'T' || c1 = 't') && (c2 = 'R' || c2 = 'r') &&
    (c3 = 'U' || c3 = 'u') && (c4 = 'E' || c4 = 'e')
  | [c1, c2, c3, c4, c5] =>
    (c1 = 'F' || c1 = 'f') && (c2 = 'A' || c2 = 'a') &&
    (c3 = 'L' || c3 = 'l') && (c4 = 'S' || c4 = 's') && (c5 = 'E' || c5 = 'e')
  | _ => false

/-- Anchored match of rx_int. -/
def match_int (s : String) : Bool := digits1 (strip_sign s.toList)

/-- Anchored match of rx_int64: digits followed by L or LL. -/
def match_int64 (s : String) : Bool :=
  let r := strip_sign s.toList
  let ds := r.takeWhile Char.isDigit
  let rest := r.dropWhile Char.isDigit
  ds ≠ [] && (rest = ['L'] || rest = ['L', 'L'])

/-- Anchored match of rx_hex. -/
def match_hex (s : String) : Bool :=
  match s.toList with
  | '0' :: x :: rest => (x = 'x' || x = 'X') && rest ≠ [] && rest.all is_hex_digit
  | _ => false

/-- Anchored match of rx_hex64. -/
def match_hex64 (s : String) : Bool :=
  match s.toList with
  | '0' :: x :: rest =>
    let hs := rest.takeWhile is_hex_digit
    let after := rest.dropWhile is_hex_digit
    (x = 'x' || x = 'X') && hs ≠ [] && (after = ['L'] || after = ['L', 'L'])
  | _ => false

/-- Exponent part of rx_float: e or E, optional sign, one or more
digits. -/
def match_exp : List Char → Bool
  | e :: rest => (e = 'e' || e = 'E') && digits1 (strip_sign rest)
  | [] => false

/-- First alternative of rx_float: optional sign, optional digits, a dot,
optional digits, optional exponent. -/
def match_floatA (s : String) : Bool :=
  let r := strip_sign s.toList
  let rest := r.dropWhile Char.isDigit
  match rest with
  | '.' :: r2 =>
    let after := r2.dropWhile Char.isDigit
    after = [] || match_exp after
  | _ => false

/-- Second alternative of rx_float: optional sign, one or more digits, an
optional fraction, and a mandatory exponent. -/
def match_floatB (s : String) : Bool :=
  let r := strip_sign s.toList
  let ds := r.takeWhile Char.isDigit
  let rest := r.dropWhile Char.isDigit
  ds ≠ [] &&
    (match rest with
    | '.' :: r2 => match_exp (r2.dropWhile Char.isDigit)
    | _ => match_exp rest)

/-- Anchored match of rx_float. -/
def match_float (s : String) : Bool := match_floatA s || match_floatB s

/-- Model of basic_config::_get_scalar_type (lines 2245-2275): the literal
classification cascade.  A token that matches nothing yields TypeGroup,
which _get_scalar_item turns into the "invalid value" syntax error. -/
def get_scalar_type (value : Token) : TType :=
  if value.text.toList.head? = some '"' then .tString
  else if match_boolean value.text then .tBoolean
  else if match_int value.text then .tInt
  else if match_hex value.text then .tInt
  else if match_int64 value.text then .tInt64
  else if match_hex64 value.text then .tInt64
  else if match_float value.text then .tFloat
  else .tGroup

/-- Hexadecimal value of a digit run. -/
def hexVal (ds : List Char) : Nat :=
  ds.foldl
    (fun a c =>
      a * 16 +
        (if c.isDigit then c.toNat - 48
         else if 97 ≤ c.toNat then c.toNat - 87
         else c.toNat - 55))
    0

/-- Model of istringstream extraction into a long under C++11 num_get: an
optional sign, a maximal digit run (base 16 when std::hex was set, also
accepting an 0x prefix), clamping to the target range on overflow and
storing zero when no digits convert.  The stream state is never checked by
the callers, so only the stored value matters. -/
def stream_read_integral (cs : List Char) (hexMode : Bool) (lo hi : Int) : Int :=
  let neg := cs.head? = some '-'
  let r := strip_sign cs
  let mag : Nat :=
    if hexMode then
      let r2 :=
        match r with
        | '0' :: x :: rest => if x = 'x' || x = 'X' then rest else r
        | _ => r
      hexVal (r2.takeWhile is_hex_digit)
    else digitsVal (r.takeWhile Char.isDigit)
  let v : Int := if neg then -(mag : Int) else (mag : Int)
  if v > hi then hi else if v < lo then lo else v

/-- Model of istringstream extraction into a bool without boolalpha: the
value is read as a long and compared with the 0/1 rule; a failed conversion
stores zero, hence false.  In particular the literals true and false both
store false. -/
def stream_read_bool (s : String) : Bool :=
  stream_read_integral s.toList false longMin longMax ≠ 0

/-- Model of _remove_quotes (lines 2060-2065): strips one leading and one
trailing quote, but only when the value begins with a quote and is longer
than two characters (so the two-character literal of an empty string is
returned unchanged, quotes included). -/
def remove_quotes (s : String) : String :=
  match s.toList with
  | '"' :: rest => if s.length > 2 then String.mk rest.dropLast else s
  | _ => s

/-- Model of basic_config::_get_scalar_item (lines 2277-2334): classify the
literal, then build the scalar through the istringstream reader; hex
literals set the FormatHex hint and switch the stream to base 16.  Float
payloads keep the literal.  An unclassified literal raises the "invalid
value" syntax error. -/
def get_scalar_item (name : Token) (value : Token) : Except CErr STree :=
  match get_scalar_type value with
  | .tString => .ok ⟨name.text, .vStr (remove_quotes value.text)⟩
  | .tBoolean => .ok ⟨name.text, .vBool (stream_read_bool value.text)⟩
  | .tInt =>
    let hexm := match_hex value.text
    .ok ⟨name.text,
      .vInt (stream_read_integral value.text.toList hexm intMin intMax)
        (if hexm then .hexF else .defaultF)⟩
  | .tInt64 =>
    let hexm := match_hex64 value.text
    .ok ⟨name.text,
      .vInt64 (stream_read_integral value.text.toList hexm longMin longMax)
        (if hexm then .hexF else .defaultF)⟩
  | .tFloat => .ok ⟨name.text, .vFloat value.text⟩
  | _ => .error (.parse (syn_exception ("invalid value " ++ value.text) value false))

/-- Head token of a nonempty token list (the *begin of the source; the
callers only dereference nonempty ranges). -/
def headTok (l : List Token) : Token := l.headD ⟨"", 0, 0, none⟩

/-- Model of _find_pair (lines 2344-2363): scan for the close token that
brings the size_t counter from 1; the counter wraps modulo 2^64 exactly as
the unsigned decrement of the source does.  Returns the tokens strictly
before the matching close and the tokens after it; reaching the end raises
the "unable to find closing tag" syntax error against the first token of
the scan. -/
def find_pair (o c : String) (orig : Token) :
    List Token → Nat → Except CErr (List Token × List Token)
  | [], _ =>
    .error (.parse (syn_exception ("unable to find closing tag of " ++ orig.text) orig false))
  | t :: ts, count =>
    if t.text = o then
      (find_pair o c orig ts ((count + 1) % 2 ^ 64)).map (fun r => (t :: r.1, r.2))
    else if t.text = c then
      if count = 1 then .ok ([], ts)
      else (find_pair o c orig ts ((count + (2 ^ 64 - 1)) % 2 ^ 64)).map (fun r => (t :: r.1, r.2))
    else (find_pair o c orig ts count).map (fun r => (t :: r.1, r.2))

/-- Model of _find_list_item (lines 2365-2399): scan to the next comma at
bracket depth zero, tracking the three bracket kinds separately; an
unmatched closer raises the corresponding syntax error.  Returns the tokens
before the comma and the remainder beginning with the comma (or all tokens
and an empty remainder when no comma occurs). -/
def find_list_item :
    List Token → Nat → Nat → Nat → Except CErr (List Token × List Token)
  | [], _, _, _ => .ok ([], [])
  | t :: ts, a, g, l =>
    if t.text = "[" then
      (find_list_item ts (a + 1) g l).map (fun r => (t :: r.1, r.2))
    else if t.text = "]" then
      if a = 0 then .error (.parse (syn_exception "unmatched array brace" t false))
      else (find_list_item ts (a - 1) g l).map (fun r => (t :: r.1, r.2))
    else if t.text = "\x7b" then
      (find_list_item ts a (g + 1) l).map (fun r => (t :: r.1, r.2))
    else if t.text = "\x7d" then
      if g = 0 then .error (.parse (syn_exception "unmatched group brace" t false))
      else (find_list_item ts a (g - 1) l).map (fun r => (t :: r.1, r.2))
    else if t.text = "(" then
      (find_list_item ts a g (l + 1)).map (fun r => (t :: r.1, r.2))
    else if t.text = ")" then
      if l = 0 then .error (.parse (syn_exception "unmatched list brace" t false))
      else (find_list_item ts a g (l - 1)).map (fun r => (t :: r.1, r.2))
    else if t.text = "," && a = 0 && g = 0 && l = 0 then .ok ([], t :: ts)
    else (find_list_item ts a g l).map (fun r => (t :: r.1, r.2))

/-- Model of _skip_end: one trailing ";" or "," is consumed. -/
def skip_end : List Token → List Token
  | [] => []
  | t :: rest => if t.text = ";" || t.text = "," then rest else t :: rest

/-- Fold the parsed children into a group through the map's add (used both
for the document root and for parsed groups); a non-group receiver hits the
abstract base add, which raises ConfigException("operation not
supported"). -/
def add_all_group : STree → List STree → Except CErr STree
  | t, [] => .ok t
  | t, s :: rest =>
    match t with
    | .mk nm (.vGroup cs) => do
      let cs' ← group_insert cs s
      add_all_group ⟨nm, .vGroup cs'⟩ rest
    | _ => .error (.cfg "operation not supported")

mutual
/-- Model of _get_setting_list (lines 2112-2128): settings are consumed
until the range is exhausted; stray punctuation raises a syntax error.
Fuel bounds the recursion depth of the mutual block and is an embedding
artifact, instantiated generously by parse_doc. -/
def get_setting_list : Nat → List Token → Except CErr (List STree)
  | 0, _ => .error .fuelOut
  | _ + 1, [] => .ok []
  | fuel + 1, tok :: rest =>
    if tok.text = "[" || tok.text = "]" then
      .error (.parse (syn_exception "unexpected array" tok false))
    else if tok.text = "\x7b" || tok.text = "\x7d" then
      .error (.parse (syn_exception "unexpected group setting without identifier" tok false))
    else if tok.text = "," || tok.text = "=" || tok.text = ":" then
      .error (.parse (syn_exception ("unexpected token " ++ tok.text) tok false))
    else do
      let r ← get_setting fuel tok rest
      let ss ← get_setting_list fuel r.2
      .ok (r.1 :: ss)

/-- Model of _get_setting (lines 2130-2163): expect "=" or ":", then
dispatch on the first value token; a missing value raises "unexpected end
of file" with the offset_at_end flag set (which _syntax_exception then
ignores). -/
def get_setting : Nat → Token → List Token → Except CErr (STree × List Token)
  | 0, _, _ => .error .fuelOut
  | _ + 1, identTok, [] =>
    .error (.parse (syn_exception "unexpected end of file" identTok true))
  | fuel + 1, identTok, tok :: rest =>
    if tok.text = "=" || tok.text = ":" then
      match rest with
      | [] => .error (.parse (syn_exception "unexpected end of file" tok true))
      | tok2 :: rest2 =>
        if tok2.text = "\x7b" then do
          let r ← get_group fuel identTok rest
          .ok (r.1, skip_end r.2)
        else if tok2.text = "(" then do
          let r ← get_list fuel identTok rest
          .ok (r.1, skip_end r.2)
        else if tok2.text = "[" then do
          let r ← get_array fuel identTok rest
          .ok (r.1, skip_end r.2)
        else do
          let s ← get_scalar_item identTok tok2
          .ok (s, skip_end rest2)
    else .error (.parse (syn_exception ("unexpected token " ++ tok.text) tok false))

/-- Model of _get_group (lines 2165-2182): the range between the braces is
parsed as a setting list and folded into a fresh group named by the
identifier token's text. -/
def get_group : Nat → Token → List Token → Except CErr (STree × List Token)
  | 0, _, _ => .error .fuelOut
  | fuel + 1, identTok, toks => do
    let pr ← find_pair "\x7b" "\x7d" (headTok toks) toks 0
    let settings ← get_setting_list fuel (pr.1.drop 1)
    let result ← add_all_group ⟨identTok.text, .vGroup .nil⟩ settings
    .ok (result, pr.2)

/-- Model of _get_list (lines 2184-2205): split the parenthesized range at
top-level commas; empty chunks are silently skipped; each nonempty chunk is
parsed as a list item and appended. -/
def get_list : Nat → Token → List Token → Except CErr (STree × List Token)
  | 0, _, _ => .error .fuelOut
  | fuel + 1, identTok, toks => do
    let pr ← find_pair "(" ")" (headTok toks) toks 0
    let cs ← list_items fuel .nil pr.1
    .ok (⟨identTok.text, .vList cs⟩, pr.2)

/-- Model of _get_array (lines 2207-2228): as for lists, but every item is
added through the array's type-checking add. -/
def get_array : Nat → Token → List Token → Except CErr (STree × List Token)
  | 0, _, _ => .error .fuelOut
  | fuel + 1, identTok, toks => do
    let pr ← find_pair "[" "]" (headTok toks) toks 0
    let cs ← array_items fuel .nil pr.1
    .ok (⟨identTok.text, .vArray cs⟩, pr.2)

/-- The element loop shared shape of _get_list: the head of the range is
the opening token or a separating comma and is skipped, then the next chunk
is delimited. -/
def list_items : Nat → SForest → List Token → Except CErr SForest
  | 0, _, _ => .error .fuelOut
  | _ + 1, acc, [] => .ok acc
  | fuel + 1, acc, _ :: rest => do
    let pr ← find_list_item rest 0 0 0
    if pr.1 = [] then list_items fuel acc pr.2
    else do
      let item ← get_list_item fuel pr.1
      list_items fuel (list_append acc item) pr.2

/-- The element loop of _get_array, adding through array_insert. -/
def array_items : Nat → SForest → List Token → Except CErr SForest
  | 0, _, _ => .error .fuelOut
  | _ + 1, acc, [] => .ok acc
  | fuel + 1, acc, _ :: rest => do
    let pr ← find_list_item rest 0 0 0
    if pr.1 = [] then array_items fuel acc pr.2
    else do
      let item ← get_list_item fuel pr.1
      let acc' ← array_insert acc item
      array_items fuel acc' pr.2

/-- Model of _get_list_item (lines 2230-2243): dispatch on the first token;
scalar chunks use only that token (any following tokens of the chunk are
ignored by the source); aggregate chunks re-enter the aggregate parsers
with an empty identifier token. -/
def get_list_item : Nat → List Token → Except CErr STree
  | 0, _ => .error .fuelOut
  | _ + 1, [] => .error (.cfg "BOOST_ASSERT(begin != end)")
  | fuel + 1, tok :: rest =>
    if tok.text = "(" then
      (get_list fuel ⟨"", 0, 0, none⟩ (tok :: rest)).map (fun r => r.1)
    else if tok.text = "\x7b" then
      (get_group fuel ⟨"", 0, 0, none⟩ (tok :: rest)).map (fun r => r.1)
    else if tok.text = "[" then
      (get_array fuel ⟨"", 0, 0, none⟩ (tok :: rest)).map (fun r => r.1)
    else get_scalar_item ⟨"", 0, 0, none⟩ tok
end

/-- First character of a token is a quote (the prev[0] test of
_concat_string). -/
def starts_quote (t : Token) : Bool := t.text.toList.head? = some '"'

/-- The folding loop of _concat_string: adjacent quote-initial tokens are
spliced (the trailing quote of the left and leading quote of the right are
removed); the merged token keeps the coordinates of the left one. -/
def concat_go : Token → List Token → List Token
  | prev, [] => [prev]
  | prev, cur :: rest =>
    if starts_quote prev && starts_quote cur then
      concat_go
        ⟨String.mk (prev.text.toList.dropLast ++ cur.text.toList.drop 1),
          prev.line, prev.offset, prev.file⟩ rest
    else prev :: concat_go cur rest

/-- Model of _concat_string (lines 2072-2089); the source asserts the input
nonempty and parse_doc only calls it so. -/
def concat_strings : List Token → List Token
  | [] => []
  | t0 :: rest => concat_go t0 rest

/-- The catch at the foot of parser::parse re-wraps a ParseException with
the parser's own file. -/
def rewrap_file (file : String) : CErr → CErr
  | .parse e => .parse ⟨e.error, file, e.line, e.offset⟩
  | e => e

/-- The include-scanning pass of parser::parse (lines 1955-1978) for a
parse whose filesystem resolves every include pattern to zero matches (an
empty include directory): the token after each @include is consumed and
contributes nothing; every other token is stamped with the parser's file.
A trailing @include with no following token is dropped. -/
def expand_no_fs (file : String) : List Token → List Token
  | [] => []
  | tok :: rest =>
    if tok.text = "@include" then
      match rest with
      | [] => []
      | _ :: rest2 => expand_no_fs file rest2
    else ⟨tok.text, tok.line, tok.offset, some file⟩ :: expand_no_fs file rest

/-- Model of basic_config::_read_file (lines 2091-2110) applied to a file
whose contents are the given text, with the filesystem collaborator
abstracted away (the file's name plays no role in the produced tree and is
modelled as the empty string; includes resolve to zero matches as with an
empty include directory).  Tokenize, expand includes, and unless the token
list is empty, concatenate adjacent strings, parse the setting list, and
fold it into the anonymous root group. -/
def parse_doc (text : String) : Except CErr STree := do
  let raw ← (tokenize_str text).mapError (rewrap_file "")
  let toks := expand_no_fs "" raw
  if toks = [] then .ok ⟨"", .vGroup .nil⟩
  else do
    let toks2 := concat_strings toks
    let settings ← get_setting_list (toks2.length * 4 + 16) toks2
    add_all_group ⟨"", .vGroup .nil⟩ settings

/-- The filesystem collaborator of parser::include, which the specification
declares out of scope: resolve models _construct_path plus the glob match
over the parent directory (lines 1990-2012), taking the unquoted include
path to the list of matched files; content models opening a file for
reading (a missing file yields an empty stream in the source, hence content
is total with the empty string as default). -/
structure IncFS where
  resolve : String → List String
  content : String → String

mutual
/-- Model of parser::parse for the file at the given path (lines
1955-1978): tokenize the file, then walk the tokens expanding each @include
in place.  The source constructs each nested parser with m_deep_level + 1
but never compares m_deep_level against anything, so the recursion into
included files is unbounded; the fuel parameter is the embedding's way of
expressing that recursion, and running out of fuel means the source is
still recursing.  The catch at the foot re-wraps ParseExceptions with this
parser's file. -/
def parse_file_toks (fs : IncFS) : Nat → String → Except CErr (List Token)
  | 0, _ => .error .fuelOut
  | n + 1, path =>
    (do
      let raw ← tokenize_str (fs.content path)
      expand_toks fs n path raw).mapError (rewrap_file path)
termination_by n _ => (n, 0, 0)

/-- The token walk of parser::parse: the token after @include is taken as
the include pattern; the files it resolves to are each parsed by a nested
parser and their tokens spliced in; every other token is stamped with this
parser's file.  A trailing @include with no following token is dropped. -/
def expand_toks (fs : IncFS) : Nat → String → List Token → Except CErr (List Token)
  | _, _, [] => .ok []
  | n, file, tok :: rest =>
    if tok.text = "@include" then
      match rest with
      | [] => .ok []
      | p :: rest2 => do
        let incl ← include_files fs n (fs.resolve (remove_quotes p.text))
        let out ← expand_toks fs n file rest2
        .ok (incl ++ out)
    else do
      let out ← expand_toks fs n file rest
      .ok (⟨tok.text, tok.line, tok.offset, some file⟩ :: out)
termination_by n _ toks => (n, 2, toks.length)

/-- The per-file loop of parser::include (lines 2014-2021): each matched
file is parsed by a nested parser and the token streams are
concatenated. -/
def include_files (fs : IncFS) : Nat → List String → Except CErr (List Token)
  | _, [] => .ok []
  | n, f :: fr => do
    let a ← parse_file_toks fs n f
    let b ← include_files fs n fr
    .ok (a ++ b)
termination_by n fls => (n, 1, fls.length)
end

/-- The include references a token stream makes, in order: the resolved
files of each @include pattern. -/
def collect_includes (fs : IncFS) : List Token → List String
  | [] => []
  | tok :: rest =>
    if tok.text = "@include" then
      match rest with
      | [] => []
      | p :: rest2 => fs.resolve (remove_quotes p.text) ++ collect_includes fs rest2
    else collect_includes fs rest

/-- The files a given file includes (empty when its tokenization already
fails, since parsing then stops before any include is expanded). -/
def include_refs (fs : IncFS) (path : String) : List String :=
  match tokenize_str (fs.content path) with
  | .ok toks => collect_includes fs toks
  | .error _ => []

/-- A file whose include references form a finite tree of nesting depth
below n: every file it includes is in turn bounded at depth n - 1. -/
inductive IncBounded (fs : IncFS) : Nat → String → Prop where
  | mk (n : Nat) (path : String)
    (h : ∀ q ∈ include_refs fs path, IncBounded fs n q) :
    IncBounded fs (n + 1) path

/-- A one-file filesystem in which a.cfg includes itself. -/
def selfFS : IncFS :=
  ⟨fun p => if p = "a.cfg" then ["a.cfg"] else [],
   fun p => if p = "a.cfg" then "@include \"a.cfg\"" else ""⟩

/-- Divergence of the source on the self-including file: however much fuel
the embedding grants, the include recursion is still running; in
particular no FileIOException (and no result) is ever produced. -/
def self_include_diverges : Prop :=
  ∀ n, parse_file_toks selfFS n "a.cfg" = .error .fuelOut

/-- A filesystem with one include-free file, used to witness termination of
bounded include trees. -/
def noIncFS : IncFS := ⟨fun _ => [], fun _ => "v = 2;"⟩

/-- Whether a computation completed without an exception. -/
def exceptOk {α : Type} : Except CErr α → Bool
  | .ok _ => true
  | .error _ => false

/-- Collapse a resolution result to its success value (used to compare
resolutions whose failure payloads differ). -/
def except_opt : Except CErr STree → Option STree
  | .ok s => some s
  | .error _ => none

/-- A path the specification declares invalid: empty, or beginning or
ending with a dot. -/
def bad_path (p : String) : Prop :=
  p = "" ∨ p.toList.head? = some '.' ∨ p.toList.getLast? = some '.'

/-- The values an integer scalar can actually hold on the reference
platform: int payloads fit the 32-bit range, long payloads the 64-bit
range. -/
def in_range : SVal → Prop
  | .vInt n _ => intMin ≤ n ∧ n ≤ intMax
  | .vInt64 n _ => longMin ≤ n ∧ n ≤ longMax
  | _ => True

/-- Modelled from the spec: the i32 column of the conversion matrix as the
code realizes it (the ⚠ cell for Int64 checks the 32-bit range). -/
def conv_cell_i32 : SVal → Bool
  | .vBool _ => true
  | .vInt _ _ => true
  | .vInt64 n _ => decide (intMin ≤ n) && decide (n ≤ intMax)
  | _ => false

/-- Modelled from the spec: the u32 column of the conversion matrix as the
code realizes it (negative values and values above UINT_MAX rejected). -/
def conv_cell_u32 : SVal → Bool
  | .vBool _ => true
  | .vInt n _ => decide (0 ≤ n)
  | .vInt64 n _ => decide (0 ≤ n) && decide (n ≤ uintMax)
  | _ => false

/-- Modelled from the spec: the u64 column of the conversion matrix as the
code realizes it (negative values rejected). -/
def conv_cell_u64 : SVal → Bool
  | .vBool _ => true
  | .vInt n _ => decide (0 ≤ n)
  | .vInt64 n _ => decide (0 ≤ n)
  | _ => false

/-- A block-comment body with no closing delimiter: walking it with the
escape flag of skip_comment never reaches a '/' whose previous character
was '*'. -/
def no_close : Bool → List Char → Bool
  | _, [] => true
  | esc, c :: cs => !(c = '/' && esc) && no_close (c = '*') cs

/-- A small concrete tree: an anonymous root group with one Int child
x = 1. -/
def demo_root : STree :=
  .mk "" (.vGroup (.cons (.mk "x" (.vInt 1 .defaultF)) .nil))

/-!  Theorems.  Each claim Cn of the specification audit has exactly one
theorem below, with helper lemmas shared where useful. -/

/-- C1.  The parse-print round trip fails on the code.  The empty document
parses to the empty anonymous root, which prints as a bare brace pair that
the parser rejects ("unexpected group setting without identifier", a
ParseException whose message the exception builder drops).  A parsed
Boolean setting likewise breaks the round trip: the literal true parses to
the Boolean false (stream extraction without boolalpha), prints as 0, and
re-parses as an Int, which structural equality rejects.  Hence
parse(print(T)) is not structurally equal to T for these parser-produced
trees. -/
theorem c1_round_trip_fails :
    parse_doc "" = .ok (.mk "" (.vGroup .nil)) ∧
    print_doc (.mk "" (.vGroup .nil)) = "\x7b\x7d" ∧
    parse_doc (print_doc (.mk "" (.vGroup .nil))) = .error (.parse ⟨"", "", 1, 2⟩) ∧
    parse_doc "b = true;" = .ok (.mk "" (.vGroup (.cons (.mk "b" (.vBool false)) .nil))) ∧
    print_doc (.mk "" (.vGroup (.cons (.mk "b" (.vBool false)) .nil))) = "b = 0;\n" ∧
    parse_doc (print_doc (.mk "" (.vGroup (.cons (.mk "b" (.vBool false)) .nil)))) =
      .ok (.mk "" (.vGroup (.cons (.mk "b" (.vInt 0 .defaultF)) .nil))) ∧
    settingEq (.mk "" (.vGroup (.cons (.mk "b" (.vInt 0 .defaultF)) .nil)))
      (.mk "" (.vGroup (.cons (.mk "b" (.vBool false)) .nil))) = false :=
  ⟨rfl, rfl, rfl, rfl, rfl, rfl, rfl⟩

/-- C3.  The literal true is classified as a Boolean in every letter case,
but the istringstream extraction without boolalpha fails on it and stores
zero, so the produced Boolean setting carries the value false — for the
true literals as well as the false ones. -/
theorem c3_true_literal_stores_false :
    get_scalar_item ⟨"name", 1, 1, none⟩ ⟨"true", 1, 8, none⟩ = .ok (.mk "name" (.vBool false)) ∧
    get_scalar_item ⟨"name", 1, 1, none⟩ ⟨"TRUE", 1, 8, none⟩ = .ok (.mk "name" (.vBool false)) ∧
    get_scalar_item ⟨"name", 1, 1, none⟩ ⟨"True", 1, 8, none⟩ = .ok (.mk "name" (.vBool false)) ∧
    get_scalar_item ⟨"name", 1, 1, none⟩ ⟨"False", 1, 8, none⟩ = .ok (.mk "name" (.vBool false)) ∧
    parse_doc "name = true;" = .ok (.mk "" (.vGroup (.cons (.mk "name" (.vBool false)) .nil))) :=
  ⟨rfl, rfl, rfl, rfl, rfl⟩

/-- C4.  The scalar printer writes a string payload verbatim between
quotes: a backslash, a tab and a quote in the value are emitted unescaped
(the claim requires them escaped), and for the backslash case the printed
text does not even re-tokenize — the tokenizer rejects the resulting
backslash-b as an unallowed escape. -/
theorem c4_printer_does_not_escape :
    print_setting (.mk "x" (.vStr "a\\b")) 0 true = "x = \"a\\b\"" ∧
    print_setting (.mk "y" (.vStr "a\tb")) 0 true = "y = \"a\tb\"" ∧
    print_setting (.mk "z" (.vStr "a\"b")) 0 true = "z = \"a\"b\"" ∧
    tokenize_str (print_setting (.mk "x" (.vStr "a\\b")) 0 true) =
      .error (.parse ⟨"", "", 1, 9⟩) :=
  ⟨rfl, rfl, rfl, rfl⟩

/-- C9 counterexample.  An "unexpected end of file" diagnosis against a
token of length 3 starting at column 7 reports column 7, not 7 + 3 as the
claim states: the adjusted offset is computed and then discarded. -/
theorem c9_counterexample :
    (syn_exception "unexpected end of file" ⟨"abc", 2, 7, none⟩ true).offset = 7 ∧
    (syn_exception "unexpected end of file" ⟨"abc", 2, 7, none⟩ true).offset ≠
      7 + ("abc".length) :=
  ⟨rfl, by decide⟩

/-- C9 amended.  Every ParseException built by _syntax_exception carries
the token's start coordinates, whatever the message and whatever the
offset_at_end_of_token flag; the message is dropped as well. -/
theorem c9_amended_column_is_token_start :
    ∀ (msg : String) (tok : Token) (flag : Bool),
      syn_exception msg tok flag = ⟨"", tok.file.getD "", tok.line, tok.offset⟩ :=
  fun _ _ _ => rfl

/-- C2 counterexample.  Converting a stored Boolean to float or double
succeeds (producing the long value 0 or 1 cast to floating point) instead
of raising SettingType as the matrix cell demands. -/
theorem c2_counterexample :
    lookup_float (.vBool true) = .ok (.ofLong 1) ∧
    lookup_double (.vBool true) = .ok (.ofLong 1) ∧
    lookup_float (.vBool false) = .ok (.ofLong 0) ∧
    lookup_double (.vBool false) = .ok (.ofLong 0) :=
  ⟨rfl, rfl, rfl, rfl⟩

/-- C6 counterexample.  operator[] with the empty path — invalid per the
claim — returns the receiver itself and raises nothing, rather than an
invalid-argument error. -/
theorem c6_counterexample :
    at_path_w (.mk "" (.vGroup .nil)) "" = .ok (.mk "" (.vGroup .nil)) ∧
    ∀ msg, at_path_w (.mk "" (.vGroup .nil)) "" ≠ .error (.invalidArg msg) :=
  ⟨rfl, fun _ h => by simp [at_path_w, at_path] at h⟩

/-- C10 counterexample.  lookupValue succeeds on invalid paths: a trailing
dot is ignored ("x." reads the child x) and the empty path reads the
receiver itself, so the overloads return true where the claim requires
false. -/
theorem c10_counterexample :
    lookup_path_int demo_root "x." = some 1 ∧
    lookup_path_int (.mk "x" (.vInt 7 .defaultF)) "" = some 7 :=
  ⟨rfl, rfl⟩

/-- C8 counterexample.  An input that ends inside an unterminated block
comment tokenizes without any error: the tokens before the comment are
delivered and the stream simply ends, where the claim requires a Parse
error. -/
theorem c8_counterexample :
    tokenize_str "a = 1; /* junk" =
      .ok [⟨"a", 1, 2, none⟩, ⟨"=", 1, 4, none⟩, ⟨"1", 1, 6, none⟩, ⟨";", 1, 7, none⟩] :=
  rfl

/-- C2 amended.  The conversion matrix as the code realizes it: every cell
of the specification's matrix is respected — the bool, i64, string, i32,
u32 and u64 columns behave exactly as marked, with the ⚠ cells checking
range and sign — except that a stored Boolean converts to f32 and to f64
successfully (as 0.0/1.0) instead of raising SettingType; the f32/f64
columns therefore accept every scalar except String. -/
theorem c2_amended_matrix (v : SVal) (hs : v.tag.isScalar = true) (hr : in_range v) :
    exceptOk (lookup_bool v) = !decide (v.tag = .tString) ∧
    exceptOk (lookup_long v) = decide (v.tag = .tBoolean ∨ v.tag = .tInt ∨ v.tag = .tInt64) ∧
    exceptOk (lookup_int v) = conv_cell_i32 v ∧
    exceptOk (lookup_uint v) = conv_cell_u32 v ∧
    exceptOk (lookup_ulong v) = conv_cell_u64 v ∧
    exceptOk (lookup_float v) = !decide (v.tag = .tString) ∧
    exceptOk (lookup_double v) = !decide (v.tag = .tString) ∧
    exceptOk (lookup_string v) = decide (v.tag = .tString) := by
  cases v with
  | vBool b =>
    simp only [lookup_bool, lookup_long, lookup_int, lookup_uint, lookup_ulong, lookup_float,
      lookup_double, lookup_string, exceptOk, conv_cell_i32, conv_cell_u32, conv_cell_u64,
      SVal.tag, Except.map, Except.bind, bind, intMax, intMin, uintMax]
    cases b <;> simp
  | vInt n f =>
    simp only [in_range, intMax, intMin] at hr
    simp only [lookup_bool, lookup_long, lookup_int, lookup_uint, lookup_ulong, lookup_float,
      lookup_double, lookup_string, exceptOk, conv_cell_i32, conv_cell_u32, conv_cell_u64,
      SVal.tag, Except.map, Except.bind, bind, intMax, intMin, uintMax]
    split_ifs <;> simp_all <;> omega
  | vInt64 n f =>
    simp only [in_range, longMin, longMax] at hr
    simp only [lookup_bool, lookup_long, lookup_int, lookup_uint, lookup_ulong, lookup_float,
      lookup_double, lookup_string, exceptOk, conv_cell_i32, conv_cell_u32, conv_cell_u64,
      SVal.tag, Except.map, Except.bind, bind, intMax, intMin, uintMax]
    split_ifs <;> simp_all <;> omega
  | vFloat lit =>
    simp [lookup_bool, lookup_long, lookup_int, lookup_uint, lookup_ulong, lookup_float,
      lookup_double, lookup_string, exceptOk, conv_cell_i32, conv_cell_u32, conv_cell_u64,
      SVal.tag]
  | vStr s =>
    simp [lookup_bool, lookup_long, lookup_int, lookup_uint, lookup_ulong, lookup_float,
      lookup_double, lookup_string, exceptOk, conv_cell_i32, conv_cell_u32, conv_cell_u64,
      SVal.tag]
  | vGroup cs => simp [SVal.tag, TType.isScalar] at hs
  | vList cs => simp [SVal.tag, TType.isScalar] at hs
  | vArray cs => simp [SVal.tag, TType.isScalar] at hs

/-- C2 witness: the amended matrix instantiated at a stored Int64 of value
3, whose range hypotheses hold concretely. -/
theorem c2_amended_matrix_witness :
    ((SVal.vInt64 3 .defaultF).tag.isScalar = true ∧ in_range (.vInt64 3 .defaultF)) ∧
    exceptOk (lookup_int (.vInt64 3 .defaultF)) = conv_cell_i32 (.vInt64 3 .defaultF) :=
  ⟨⟨rfl, by constructor <;> decide⟩,
    (c2_amended_matrix (.vInt64 3 .defaultF) rfl (by constructor <;> decide)).2.2.1⟩

/-- C7.  Integer narrowing: reading a stored Int64 as i32 raises
SettingType exactly when the value leaves the 32-bit range; reading either
integer width as u32 or u64 raises SettingType on negative values, and as
u32 also above UINT_MAX; a stored Int always fits i32. -/
theorem c7_integer_narrowing (n m : Int)
    (h64 : longMin ≤ n ∧ n ≤ longMax) (h32 : intMin ≤ m ∧ m ≤ intMax) :
    (lookup_int (.vInt64 n .defaultF) =
      if intMin ≤ n ∧ n ≤ intMax then .ok n else .error (.typeE "type overflow" "")) ∧
    (lookup_uint (.vInt64 n .defaultF) =
      if n < 0 then .error (.typeE "negative value" "")
      else if n ≤ uintMax then .ok n else .error (.typeE "type overflow" "")) ∧
    (lookup_ulong (.vInt64 n .defaultF) =
      if 0 ≤ n then .ok n else .error (.typeE "negative value" "")) ∧
    (lookup_int (.vInt m .defaultF) = .ok m) ∧
    (lookup_uint (.vInt m .defaultF) =
      if 0 ≤ m then .ok m else .error (.typeE "negative value" "")) ∧
    (lookup_ulong (.vInt m .defaultF) =
      if 0 ≤ m then .ok m else .error (.typeE "negative value" "")) := by
  simp only [intMin, intMax] at h32
  refine ⟨?_, ?_, ?_, ?_, ?_, ?_⟩ <;>
    simp only [lookup_int, lookup_uint, lookup_ulong, lookup_long, Except.bind, bind,
      intMax, intMin, uintMax] <;>
    split_ifs <;>
      first
      | rfl
      | omega
      | (simp_all only [Bool.or_eq_true, decide_eq_true_eq]; omega)

/-- Helper: the catch clause of _at preserves an invalid-argument error
unchanged (it only re-wraps not-found errors). -/
theorem wrap_invalid {p : List Char} {r : Except CErr STree} {m : String}
    (h : wrap_not_found p r = .error (.invalidArg m)) : r = .error (.invalidArg m) := by
  unfold wrap_not_found at h
  split at h <;> simp_all

/-- Helper: indexed child access only fails with not-found. -/
theorem value_at_idx_ne_invalid (t : STree) (i : Nat) (m : String) :
    value_at_idx t i ≠ .error (.invalidArg m) := by
  intro h
  unfold value_at_idx at h
  split at h <;> (try split at h) <;> simp_all

/-- Helper: named child access only fails with not-found. -/
theorem value_at_name_ne_invalid (t : STree) (nm : String) (m : String) :
    value_at_name t nm ≠ .error (.invalidArg m) := by
  intro h
  unfold value_at_name at h
  split at h <;> (try split at h) <;> simp_all

/-- Helper: _at never raises an invalid-argument error, whatever the path
looks like — its only failures are not-found (and the embedding's fuel
marker). -/
theorem at_path_no_invalid :
    ∀ (fuel : Nat) (t : STree) (p : List Char) (msg : String),
      at_path fuel t p ≠ .error (.invalidArg msg) := by
  intro fuel
  induction fuel with
  | zero => intro t p msg h; simp [at_path] at h
  | succ fuel ih =>
    intro t p msg h
    rw [at_path] at h
    by_cases hp : p = []
    · simp [hp] at h
    · rw [if_neg hp] at h
      have h' := wrap_invalid h
      split at h'
      · split at h'
        · exact value_at_idx_ne_invalid _ _ _ h'
        · exact value_at_name_ne_invalid _ _ _ h'
      · split at h'
        · rename_i i hi
          rcases hv : value_at_idx t i with e | c
          · rw [hv] at h'
            simp only [Except.bind, bind] at h'
            exact value_at_idx_ne_invalid t i msg (by rw [hv, h'])
          · rw [hv] at h'
            simp only [Except.bind, bind] at h'
            exact ih _ _ _ h'
        · rename_i hi
          rcases hv : value_at_name t (String.mk (local_of p)) with e | c
          · rw [hv] at h'
            simp only [Except.bind, bind] at h'
            exact value_at_name_ne_invalid t _ msg (by rw [hv, h'])
          · rw [hv] at h'
            simp only [Except.bind, bind] at h'
            exact ih _ _ _ h'

/-- C6 amended.  exists and remove do validate: on every path that is
empty or begins or ends with a dot they raise invalid-argument before
touching the tree; operator[] performs no such validation — the empty path
resolves to the receiver itself, and _at can never produce an
invalid-argument error at all (its failures are not-found), so the
invalid-path errors of the claim are simply absent from that
operation. -/
theorem c6_amended :
    (∀ (p : String) (t : STree), bad_path p →
      (∃ msg, exists_path t p = .error (.invalidArg msg)) ∧
      (∃ msg, remove_path t p = .error (.invalidArg msg))) ∧
    (∀ t : STree, at_path_w t "" = .ok t) ∧
    (∀ (t : STree) (p : String) (msg : String), at_path_w t p ≠ .error (.invalidArg msg)) := by
  refine ⟨?_, fun t => rfl, fun t p msg => at_path_no_invalid _ _ _ _⟩
  intro p t hbad
  have hc : ∃ m, check_path p.toList = .error (.invalidArg m) := by
    rcases hbad with h | h | h
    · subst h; exact ⟨"Path is empty", by simp [check_path]⟩
    · refine ⟨"Path can not begin or end with dot(.)", ?_⟩
      have hne : p.toList ≠ [] := by intro e; rw [e] at h; simp at h
      simp only [String.toList] at h hne
      simp [check_path, String.toList, hne, h]
    · refine ⟨"Path can not begin or end with dot(.)", ?_⟩
      have hne : p.toList ≠ [] := by intro e; rw [e] at h; simp at h
      simp only [String.toList] at h hne
      simp [check_path, String.toList, hne, h]
  rcases hc with ⟨m, hm⟩
  exact ⟨⟨m, by rw [exists_path, hm]; rfl⟩,
    ⟨m, by rw [remove_path, hm]; rfl⟩⟩

/-- C6 witness: the path ".a" is invalid, and on the demo tree exists and
remove raise invalid-argument for it. -/
theorem c6_amended_witness :
    bad_path ".a" ∧
    (∃ msg, exists_path demo_root ".a" = .error (.invalidArg msg)) ∧
    (∃ msg, remove_path demo_root ".a" = .error (.invalidArg msg)) := by
  have hbad : bad_path ".a" := Or.inr (Or.inl rfl)
  exact ⟨hbad, (c6_amended.1 ".a" demo_root hbad).1, (c6_amended.1 ".a" demo_root hbad).2⟩

/-- Helper: collapsing to an option ignores the re-wrapping of not-found
payloads done by the catch of _at. -/
theorem except_opt_wrap (p : List Char) (r : Except CErr STree) :
    except_opt (wrap_not_found p r) = except_opt r := by
  unfold wrap_not_found
  split <;> simp [except_opt]

/-- Helper: the empty path resolves to the receiver at any positive
fuel. -/
theorem at_path_nil (k : Nat) (t : STree) : at_path (k + 1) t [] = .ok t := by
  simp [at_path]

/-- Helper: splitting a dot-free component followed by a dot. -/
theorem takeWhile_append_dot (cs : List Char) (h : '.' ∉ cs) :
    (cs ++ ['.']).takeWhile (fun c => c ≠ '.') = cs ∧
    (cs ++ ['.']).dropWhile (fun c => c ≠ '.') = ['.'] := by
  induction cs with
  | nil => simp
  | cons c cs ih =>
    have hc : c ≠ '.' := fun e => h (e ▸ List.mem_cons_self c cs)
    have hcs : '.' ∉ cs := fun e => h (List.mem_cons_of_mem c e)
    obtain ⟨h1, h2⟩ := ih hcs
    constructor
    · simp only [List.cons_append, List.takeWhile_cons]
      rw [if_pos (by simp [hc]), h1]
    · simp only [List.cons_append, List.dropWhile_cons]
      rw [if_pos (by simp [hc])]
      exact h2

/-- Helper: a path with a dot appended is a long path. -/
theorem long_path_append_dot (cs : List Char) : long_path (cs ++ ['.']) = true := by
  have : '.' ∈ cs ++ ['.'] := List.mem_append_right cs (List.mem_singleton.mpr rfl)
  simpa [long_path] using List.elem_iff.mpr this

/-- Helper: a dot-free path is short. -/
theorem long_path_no_dot (cs : List Char) (h : '.' ∉ cs) : long_path cs = false := by
  by_contra hb
  have : long_path cs = true := by
    cases hl : long_path cs
    · exact absurd hl hb
    · rfl
  exact h (List.elem_iff.mp this)

/-- Helper: appending a dot to a dot-free nonempty component resolves to
the same setting (only the failure payloads can differ): the added dot
makes the path long with an empty remainder, which _at then resolves to
the child itself. -/
theorem at_single_trailing (t : STree) (cs : List Char) (hne : cs ≠ []) (hnd : '.' ∉ cs) :
    except_opt (at_path (cs.length + 2) t (cs ++ ['.'])) =
    except_opt (at_path (cs.length + 1) t cs) := by
  obtain ⟨hT, hD⟩ := takeWhile_append_dot cs hnd
  have hrem : remote_of (cs ++ ['.']) = [] := by
    unfold remote_of
    rw [hD]
    rfl
  have hloc : local_of (cs ++ ['.']) = cs := hT
  have hap : cs ++ ['.'] ≠ [] := by simp
  simp only [at_path, if_neg hap, if_neg hne, long_path_append_dot,
    long_path_no_dot cs hnd, hloc, hrem, Bool.not_true, Bool.not_false,
    Bool.false_eq_true, Bool.true_eq_false, if_false, if_true, ite_false, ite_true]
  cases hci : convert_index cs with
  | none =>
    simp only [hci]
    cases hv : value_at_name t (String.mk cs) with
    | error e =>
      rw [except_opt_wrap, except_opt_wrap]
      rfl
    | ok c =>
      rw [except_opt_wrap, except_opt_wrap]
      rfl
  | some i =>
    simp only [hci]
    cases hv : value_at_idx t i with
    | error e =>
      rw [except_opt_wrap, except_opt_wrap]
      rfl
    | ok c =>
      rw [except_opt_wrap, except_opt_wrap]
      rfl

/-- Helper: the path overload of lookupValue factors through the
resolution collapsed to an option. -/
theorem lookup_path_int_eq (t : STree) (p : String) :
    lookup_path_int t p =
      (except_opt (at_path_w t p)).bind (fun s => catch_all (lookup_int s.val)) := by
  cases h : at_path_w t p <;>
    simp [lookup_path_int, catch_all, except_opt, h, Except.bind, bind]

/-- C10 amended.  The lookupValue(path, out) overloads never propagate an
exception (the embedding realizes the catch-all as a total option-valued
function): they produce a value exactly when resolution and conversion both
succeed, and produce false — leaving the output argument unassigned —
otherwise.  But path syntax is not validated: resolution can never fail
with invalid-argument, the empty path reads the receiver itself, and a
trailing dot on a component is ignored, so the claim's invalid paths can
return true. -/
theorem c10_amended :
    (∀ (t : STree) (p : String) (v : Int),
      lookup_path_int t p = some v ↔ ∃ s, at_path_w t p = .ok s ∧ lookup_int s.val = .ok v) ∧
    (∀ (t : STree) (p : String) (msg : String), at_path_w t p ≠ .error (.invalidArg msg)) ∧
    (∀ t : STree, lookup_path_int t "" = catch_all (lookup_int t.val)) ∧
    (∀ (t : STree) (nm : String), nm ≠ "" → '.' ∉ nm.toList →
      lookup_path_int t (nm ++ ".") = lookup_path_int t nm) := by
  refine ⟨?_, fun t p msg => at_path_no_invalid _ _ _ _, fun t => rfl, ?_⟩
  · intro t p v
    rw [lookup_path_int_eq]
    cases h : at_path_w t p with
    | error e => simp [except_opt, h]
    | ok s =>
      simp only [except_opt, h]
      cases h2 : lookup_int s.val with
      | error e => simp [catch_all, h2]
      | ok w => simp [catch_all, h2]
  · intro t nm hne hnd
    have hne' : nm.toList ≠ [] := by
      intro e
      apply hne
      cases nm with
      | mk d =>
        simp only [String.toList] at e
        subst e
        rfl
    rw [lookup_path_int_eq, lookup_path_int_eq]
    suffices hopt : except_opt (at_path_w t (nm ++ ".")) = except_opt (at_path_w t nm) by
      rw [hopt]
    unfold at_path_w
    have hdata : (nm ++ ".").toList = nm.toList ++ ['.'] := by
      cases nm with
      | mk d => rfl
    have hlen : (nm ++ ".").length = nm.length + 1 := by
      rw [String.length_append]
      rfl
    rw [hdata, hlen]
    have hsl : nm.length = nm.toList.length := rfl
    rw [hsl]
    exact at_single_trailing t nm.toList hne' hnd

/-- C10 witness: the trailing-dot agreement instantiated at the dot-free
component "x" on the demo tree. -/
theorem c10_amended_witness :
    (("x" : String) ≠ "" ∧ '.' ∉ ("x" : String).toList) ∧
    lookup_path_int demo_root ("x" ++ ".") = lookup_path_int demo_root "x" :=
  ⟨⟨by decide, by decide⟩, c10_amended.2.2.2 demo_root "x" (by decide) (by decide)⟩

/-- C7 witness: 2^31 overflows i32 coming from an Int64, and -5 is
rejected by the unsigned conversion, with all hypotheses concrete. -/
theorem c7_integer_narrowing_witness :
    ((longMin ≤ (2147483648 : Int) ∧ (2147483648 : Int) ≤ longMax) ∧
      (intMin ≤ (-5 : Int) ∧ (-5 : Int) ≤ intMax)) ∧
    lookup_int (.vInt64 2147483648 .defaultF) = .error (.typeE "type overflow" "") ∧
    lookup_uint (.vInt (-5) .defaultF) = .error (.typeE "negative value" "") := by
  have h64 : longMin ≤ (2147483648 : Int) ∧ (2147483648 : Int) ≤ longMax := by
    constructor <;> decide
  have h32 : intMin ≤ (-5 : Int) ∧ (-5 : Int) ≤ intMax := by constructor <;> decide
  have h := c7_integer_narrowing 2147483648 (-5) h64 h32
  refine ⟨⟨h64, h32⟩, ?_, ?_⟩
  · have h1 := h.1
    rwa [if_neg (by decide)] at h1
  · have h5 := h.2.2.2.2.1
    rwa [if_neg (by decide)] at h5


/-- skip_comment on a block-comment body that never closes consumes the
entire stream and reports a clean end (ok none), modelling operator()
returning false when in.eof() inside the comment loop. -/
theorem skip_comment_block :
    ∀ (cs : List Char) (pos : Pos) (esc : Bool),
      no_close esc cs = true → skip_comment false cs pos false true esc = .ok none := by
  intro cs
  induction cs with
  | nil => intro pos esc h; rfl
  | cons c cs ih =>
    intro pos esc h
    rw [no_close] at h
    rw [Bool.and_eq_true, Bool.not_eq_true'] at h
    obtain ⟨h1, h2⟩ := h
    rw [skip_comment.eq_def]
    dsimp only
    rw [if_neg (by simp)]
    rw [if_pos rfl]
    rw [h1]
    simp only [Bool.false_eq_true, if_false]
    by_cases hc : c = '*'
    · rw [if_pos hc]
      apply ih
      simpa [hc] using h2
    · rw [if_neg hc]
      apply ih
      simpa [hc] using h2

/-- Tokenizing from the start of an unterminated block comment delivers the
tokens accumulated so far and stops, with no error. -/
theorem tokenize_comment_all (fuel : Nat) (rest : List Char) (pos : Pos) (acc : List Token)
    (h : no_close false rest = true) :
    tokenize_loop (fuel + 1) ('/' :: '*' :: rest) pos none acc = .ok acc.reverse := by
  have hskip : skip_comment false ('/' :: '*' :: rest) pos false false false = .ok none := by
    have hstep : skip_comment false ('/' :: '*' :: rest) pos false false false =
        skip_comment false rest (get_pos '*' (get_pos '/' pos)) false true false := rfl
    rw [hstep]
    exact skip_comment_block rest _ false h
  have hnt : next_tok (('/' :: '*' :: rest).length + 1) ('/' :: '*' :: rest) pos
      false false false ⟨"", 0, 0, none⟩ = .ok .eos := by
    rw [next_tok.eq_def]
    dsimp only
    rw [hskip]
  rw [tokenize_loop.eq_def]
  dsimp only
  rw [hnt]

/-- C8 (amended): on end of stream inside a block comment the tokenizer does
not raise the claimed ParseException; operator() simply reports end of
stream, so the input tokenizes successfully to the tokens seen before the
comment.  Stated for a whole input that is one unterminated comment: it
tokenizes to the empty token list. -/
theorem c8_amended :
    ∀ (rest : List Char), no_close false rest = true →
      tokenize_str (String.mk ('/' :: '*' :: rest)) = .ok [] := by
  intro rest h
  exact tokenize_comment_all (2 * (String.mk ('/' :: '*' :: rest)).length + 3) rest posInit [] h

/-- Witness for C8 (amended) at a concrete unterminated comment body. -/
theorem c8_amended_witness :
    no_close false [' ', 'j', 'u', 'n', 'k'] = true ∧
      tokenize_str (String.mk ['/', '*', ' ', 'j', 'u', 'n', 'k']) = .ok [] :=
  ⟨rfl, c8_amended [' ', 'j', 'u', 'n', 'k'] rfl⟩

set_option maxHeartbeats 1000000
theorem skip_comment_consumes (isStr : Bool) :
    ∀ (cs : List Char) (pos : Pos) (a b e : Bool), ∀ ch cs' p',
      skip_comment isStr cs pos a b e = .ok (some (ch, cs', p')) → cs'.length < cs.length := by
  intro cs pos a b e
  induction cs, pos, a, b, e using skip_comment.induct isStr with
  | case3 c cs0 pos0 simple esc p1 hstr hc ih =>
    intro ch cs' p' h
    simp only [Bool.and_eq_true, decide_eq_true_eq] at hc
    obtain ⟨hc1, hc2⟩ := hc
    subst hc1
    subst hc2
    rw [skip_comment.eq_def] at h
    dsimp only at h
    rw [if_neg hstr] at h
    have := ih _ _ _ h
    simp only [List.length_cons]
    omega
  | case5 c cs0 pos0 simple esc p1 hstr hnc hne ih =>
    intro ch cs' p' h
    rw [skip_comment.eq_def] at h
    dsimp only at h
    rw [if_neg hstr] at h
    rw [if_pos rfl] at h
    rw [if_neg hnc] at h
    rw [if_neg hne] at h
    have := ih _ _ _ h
    simp only [List.length_cons]
    omega
  | _ =>
    first
      | (intro ch cs' p' h
         rw [skip_comment.eq_def] at h
         simp_all
         omega)
      | (intro ch cs' p' h
         rw [skip_comment.eq_def] at h
         simp_all)

theorem next_tok_no_fuel_aux :
    ∀ (n : Nat) (cs : List Char), cs.length ≤ n →
      ∀ (fuel : Nat) (pos : Pos) (a b c : Bool) (tok : Token), cs.length < fuel →
        next_tok fuel cs pos a b c tok ≠ .error .fuelOut := by
  intro n
  induction n with
  | zero =>
    intro cs hle fuel pos a b c tok hlt hbad
    have hnil : cs = [] := List.length_eq_zero.mp (Nat.le_zero.mp hle)
    subst hnil
    cases fuel with
    | zero => simp at hlt
    | succ f =>
      rw [next_tok.eq_def] at hbad
      dsimp only at hbad
      simp at hbad
  | succ n ih =>
    intro cs hle fuel pos a b c tok hlt hbad
    cases cs with
    | nil =>
      cases fuel with
      | zero => simp at hlt
      | succ f =>
        rw [next_tok.eq_def] at hbad
        dsimp only at hbad
        simp at hbad
    | cons c0 cs0 =>
      cases fuel with
      | zero => omega
      | succ f =>
        rw [next_tok.eq_def] at hbad
        dsimp only at hbad
        cases hskip : skip_comment a (c0 :: cs0) pos false false false with
        | error e =>
          rw [hskip] at hbad
          simp at hbad
        | ok r =>
          cases r with
          | none =>
            rw [hskip] at hbad
            simp at hbad
          | some trip =>
            obtain ⟨ch, cs', p'⟩ := trip
            rw [hskip] at hbad
            dsimp only at hbad
            have hc := skip_comment_consumes a (c0 :: cs0) pos false false false ch cs' p' hskip
            simp only [List.length_cons] at hle hlt hc
            repeat' split at hbad
            all_goals
              first
              | simp at hbad
              | exact ih cs' (by omega) _ _ _ _ _ _ (by omega) hbad

theorem next_tok_emit_consumes_aux :
    ∀ (n : Nat) (cs : List Char), cs.length ≤ n →
      ∀ (fuel : Nat) (pos : Pos) (a b c : Bool) (tok t : Token) (pend : Option Char)
        (rest : List Char) (p : Pos),
        next_tok fuel cs pos a b c tok = .ok (.emit t pend rest p) →
        rest.length < cs.length := by
  intro n
  induction n with
  | zero =>
    intro cs hle fuel pos a b c tok t pend rest p hbad
    have hnil : cs = [] := List.length_eq_zero.mp (Nat.le_zero.mp hle)
    subst hnil
    cases fuel with
    | zero => simp [next_tok] at hbad
    | succ f =>
      rw [next_tok.eq_def] at hbad
      dsimp only at hbad
      simp at hbad
  | succ n ih =>
    intro cs hle fuel pos a b c tok t pend rest p hbad
    cases cs with
    | nil =>
      cases fuel with
      | zero => simp [next_tok] at hbad
      | succ f =>
        rw [next_tok.eq_def] at hbad
        dsimp only at hbad
        simp at hbad
    | cons c0 cs0 =>
      cases fuel with
      | zero => simp [next_tok] at hbad
      | succ f =>
        rw [next_tok.eq_def] at hbad
        dsimp only at hbad
        cases hskip : skip_comment a (c0 :: cs0) pos false false false with
        | error e =>
          rw [hskip] at hbad
          simp at hbad
        | ok r =>
          cases r with
          | none =>
            rw [hskip] at hbad
            simp at hbad
          | some trip =>
            obtain ⟨ch, cs', p'⟩ := trip
            rw [hskip] at hbad
            dsimp only at hbad
            have hc := skip_comment_consumes a (c0 :: cs0) pos false false false ch cs' p' hskip
            simp only [List.length_cons] at hle hc ⊢
            repeat' split at hbad
            all_goals
              first
              | (injection hbad with hb
                 injection hb with e1 e2 e3 e4
                 have h5 := congrArg List.length e3
                 omega)
              | injection hbad
              | (have hrec := ih cs' (by omega) _ _ _ _ _ _ _ _ _ _ hbad
                 omega)

theorem tokenize_loop_no_fuel :
    ∀ (fuel : Nat) (cs : List Char) (pos : Pos) (pend : Option Char) (acc : List Token),
      2 * cs.length + (if pend.isSome then 1 else 0) < fuel →
      tokenize_loop fuel cs pos pend acc ≠ .error .fuelOut := by
  intro fuel
  induction fuel with
  | zero =>
    intro cs pos pend acc hlt
    omega
  | succ f ih =>
    intro cs pos pend acc hlt hbad
    cases pend with
    | some pc =>
      rw [tokenize_loop.eq_def] at hbad
      dsimp only at hbad
      simp only [Option.isSome_some, if_true] at hlt
      exact ih cs pos none _ (by simp only [Option.isSome_none, Bool.false_eq_true, if_false]; omega) hbad
    | none =>
      rw [tokenize_loop.eq_def] at hbad
      dsimp only at hbad
      simp only [Option.isSome_none, Bool.false_eq_true, if_false] at hlt
      cases hnt : next_tok (cs.length + 1) cs pos false false false ⟨"", 0, 0, none⟩ with
      | error e =>
        rw [hnt] at hbad
        dsimp only at hbad
        injection hbad with he
        subst he
        exact next_tok_no_fuel_aux cs.length cs le_rfl _ _ _ _ _ _ (by omega) hnt
      | ok step =>
        cases step with
        | eos =>
          rw [hnt] at hbad
          simp at hbad
        | emit t pend2 rest p2 =>
          rw [hnt] at hbad
          dsimp only at hbad
          have hcons := next_tok_emit_consumes_aux cs.length cs le_rfl _ _ _ _ _ _ _ _ _ _ hnt
          refine ih rest p2 pend2 (t :: acc) ?_ hbad
          cases pend2 <;>
            simp only [Option.isSome_some, Option.isSome_none, Bool.false_eq_true, if_true,
              if_false] <;> omega

theorem tokenize_str_no_fuel (s : String) :
    tokenize_str s ≠ .error .fuelOut := by
  unfold tokenize_str
  apply tokenize_loop_no_fuel
  simp only [Option.isSome_none, Bool.false_eq_true, if_false, String.length, String.toList]
  omega

theorem rewrap_fuelOut (file : String) (e : CErr) (h : rewrap_file file e = .fuelOut) :
    e = .fuelOut := by
  cases e <;> first | rfl | simp [rewrap_file] at h

theorem include_files_no_fuel (fs : IncFS) (n : Nat) :
    ∀ (fls : List String),
      (∀ q ∈ fls, parse_file_toks fs n q ≠ .error .fuelOut) →
      include_files fs n fls ≠ .error .fuelOut := by
  intro fls
  induction fls with
  | nil =>
    intro h hbad
    rw [include_files.eq_def] at hbad
    simp at hbad
  | cons f fr ih =>
    intro h hbad
    rw [include_files.eq_def] at hbad
    dsimp only at hbad
    cases hp : parse_file_toks fs n f with
    | error e =>
      rw [hp] at hbad
      simp only [bind, Except.bind] at hbad
      injection hbad with he
      exact h f (List.mem_cons_self f fr) (by rw [hp, he])
    | ok a =>
      rw [hp] at hbad
      simp only [bind, Except.bind] at hbad
      cases hq : include_files fs n fr with
      | error e =>
        rw [hq] at hbad
        injection hbad with he
        exact ih (fun q hqm => h q (List.mem_cons_of_mem f hqm)) (by rw [hq, he])
      | ok b =>
        rw [hq] at hbad
        simp at hbad

theorem expand_toks_no_fuel (fs : IncFS) (n : Nat) :
    ∀ (L : Nat) (toks : List Token), toks.length ≤ L → ∀ (file : String),
      (∀ q ∈ collect_includes fs toks, parse_file_toks fs n q ≠ .error .fuelOut) →
      expand_toks fs n file toks ≠ .error .fuelOut := by
  intro L
  induction L with
  | zero =>
    intro toks hle file h hbad
    have hnil : toks = [] := List.length_eq_zero.mp (Nat.le_zero.mp hle)
    subst hnil
    rw [expand_toks.eq_def] at hbad
    simp at hbad
  | succ L ih =>
    intro toks hle file h hbad
    cases toks with
    | nil =>
      rw [expand_toks.eq_def] at hbad
      simp at hbad
    | cons tok rest =>
      rw [expand_toks.eq_def] at hbad
      dsimp only at hbad
      by_cases ht : tok.text = "@include"
      · rw [if_pos ht] at hbad
        cases rest with
        | nil => simp at hbad
        | cons p rest2 =>
          dsimp only at hbad
          have hcol : collect_includes fs (tok :: p :: rest2) =
              fs.resolve (remove_quotes p.text) ++ collect_includes fs rest2 := by
            rw [collect_includes.eq_def]
            dsimp only
            rw [if_pos ht]
          cases hi : include_files fs n (fs.resolve (remove_quotes p.text)) with
          | error e =>
            rw [hi] at hbad
            simp only [bind, Except.bind] at hbad
            injection hbad with he
            refine include_files_no_fuel fs n _ ?_ (by rw [hi, he])
            intro q hq
            exact h q (by rw [hcol]; exact List.mem_append_left _ hq)
          | ok incl =>
            rw [hi] at hbad
            simp only [bind, Except.bind] at hbad
            cases hx : expand_toks fs n file rest2 with
            | error e =>
              rw [hx] at hbad
              simp only [bind, Except.bind] at hbad
              injection hbad with he
              refine ih rest2 (by simp only [List.length_cons] at hle; omega) file ?_
                (by rw [hx, he])
              intro q hq
              exact h q (by rw [hcol]; exact List.mem_append_right _ hq)
            | ok out =>
              rw [hx] at hbad
              simp at hbad
      · rw [if_neg ht] at hbad
        have hcol : collect_includes fs (tok :: rest) = collect_includes fs rest := by
          rw [collect_includes.eq_def]
          dsimp only
          rw [if_neg ht]
        cases hx : expand_toks fs n file rest with
        | error e =>
          rw [hx] at hbad
          simp only [bind, Except.bind] at hbad
          injection hbad with he
          refine ih rest (by simp only [List.length_cons] at hle; omega) file ?_
            (by rw [hx, he])
          intro q hq
          exact h q (by rw [hcol]; exact hq)
        | ok out =>
          rw [hx] at hbad
          simp only [bind, Except.bind] at hbad
          injection hbad


/-- C5 (amended): the source tracks include depth but never enforces a
bound; what is true instead is that parsing terminates exactly on include
trees of finite nesting depth.  Whenever the include references reachable
from a file form a tree bounded at depth n, a parse granted fuel n cannot
run out of fuel. -/
theorem c5_amended (fs : IncFS) (n : Nat) (path : String)
    (hb : IncBounded fs n path) :
    parse_file_toks fs n path ≠ .error .fuelOut := by
  induction hb with
  | mk n path h ih =>
    intro hbad
    rw [parse_file_toks.eq_def] at hbad
    dsimp only at hbad
    cases htk : tokenize_str (fs.content path) with
    | error e =>
      rw [htk] at hbad
      simp only [bind, Except.bind, Except.mapError] at hbad
      injection hbad with he
      exact tokenize_str_no_fuel (fs.content path) (by rw [htk, rewrap_fuelOut path e he])
    | ok raw =>
      rw [htk] at hbad
      simp only [bind, Except.bind, Except.mapError] at hbad
      cases hx : expand_toks fs n path raw with
      | error e =>
        rw [hx] at hbad
        injection hbad with he
        refine expand_toks_no_fuel fs n raw.length raw le_rfl path ?_
          (by rw [hx, rewrap_fuelOut path e he])
        intro q hq
        refine ih q ?_
        unfold include_refs
        rw [htk]
        exact hq
      | ok out =>
        rw [hx] at hbad
        simp at hbad

theorem c5_amended_witness :
    IncBounded noIncFS 1 "a.cfg" ∧ parse_file_toks noIncFS 1 "a.cfg" ≠ .error .fuelOut := by
  have hrefs : include_refs noIncFS "a.cfg" = [] := by rfl
  have hb : IncBounded noIncFS 1 "a.cfg" :=
    IncBounded.mk 0 "a.cfg" (by
      intro q hq
      rw [hrefs] at hq
      exact absurd hq (List.not_mem_nil q))
  exact ⟨hb, c5_amended noIncFS 1 "a.cfg" hb⟩

theorem self_div : ∀ (n : Nat), parse_file_toks selfFS n "a.cfg" = .error .fuelOut := by
  intro n
  induction n with
  | zero =>
    rw [parse_file_toks.eq_def]
  | succ n ih =>
    rw [parse_file_toks.eq_def]
    dsimp only
    have htk : tokenize_str (selfFS.content "a.cfg") =
        .ok [⟨"@include", 1, 2, none⟩, ⟨"\"a.cfg\"", 1, 11, none⟩] := by rfl
    rw [htk]
    simp only [bind, Except.bind, Except.mapError]
    have h1 : include_files selfFS n ["a.cfg"] = .error .fuelOut := by
      rw [include_files.eq_def]
      simp only [ih, bind, Except.bind]
    have h2 : expand_toks selfFS n "a.cfg"
        [⟨"@include", 1, 2, none⟩, ⟨"\"a.cfg\"", 1, 11, none⟩] = .error .fuelOut := by
      rw [expand_toks.eq_def]
      simp only [bind, Except.bind]
      rw [if_pos trivial]
      have hres : selfFS.resolve (remove_quotes "\"a.cfg\"") = ["a.cfg"] := rfl
      rw [hres, h1]
    rw [h2]
    rfl

/-- C5 counterexample: a file that includes itself.  The source constructs
each nested parser with m_deep_level + 1 yet never compares the depth
against any limit, so the include recursion never stops: whatever fuel the
embedding grants, the parse of a.cfg is still recursing, and no
FileIOException (claimed for exceeding 10 levels) is ever thrown. -/
theorem c5_counterexample :
    self_include_diverges ∧ parse_file_toks selfFS 1000 "a.cfg" = .error .fuelOut := by
  exact ⟨self_div, self_div 1000⟩


end LibConfig
